import Mathlib

/-!
Verification of the scriptSyncManager repository's period calculator,
iterator engine, checkpoint store and scheduler loader.

The Python sources are shallowly embedded: datetimes become a record of a
proleptic-Gregorian civil date plus seconds-of-day (microseconds are not
modelled; every datetime the calculator manipulates has whole-second
granularity), strings become `List Char`, and code paths that raise
`ValueError`/`IndexError` return `Except String _`.  Python's year cap of
9999 is not modelled; years grow unboundedly.
-/

namespace SSM

/-! ## Calendar arithmetic (model of Python `datetime.date`) -/

/-- Gregorian leap-year rule, as used by Python's `datetime`. -/
def isLeap (y : Nat) : Bool :=
  (y % 4 == 0 && y % 100 != 0) || (y % 400 == 0)

/-- Days in month `m` (1-12) of a year with leap flag `leap`; 0 for an
invalid month number. -/
def daysInMonth (leap : Bool) (m : Nat) : Nat :=
  match m with
  | 1 => 31
  | 2 => if leap then 29 else 28
  | 3 => 31
  | 4 => 30
  | 5 => 31
  | 6 => 30
  | 7 => 31
  | 8 => 31
  | 9 => 30
  | 10 => 31
  | 11 => 30
  | 12 => 31
  | _ => 0

/-- Days elapsed in the year before month `m` starts. -/
def daysBeforeMonth (leap : Bool) (m : Nat) : Nat :=
  match m with
  | 1 => 0
  | 2 => 31
  | 3 => if leap then 60 else 59
  | 4 => if leap then 91 else 90
  | 5 => if leap then 121 else 120
  | 6 => if leap then 152 else 151
  | 7 => if leap then 182 else 181
  | 8 => if leap then 213 else 212
  | 9 => if leap then 244 else 243
  | 10 => if leap then 274 else 273
  | 11 => if leap then 305 else 304
  | 12 => if leap then 335 else 334
  | _ => 0

/-- A civil date: the `year`/`month`/`day` fields of a Python `datetime`. -/
structure Date where
  year : Nat
  month : Nat
  day : Nat
deriving DecidableEq, Repr

/-- The constraints Python's `datetime` constructor enforces on a date
(minus the year-9999 cap, which we do not model). -/
def Date.Valid (d : Date) : Prop :=
  1 ≤ d.year ∧ 1 ≤ d.month ∧ d.month ≤ 12 ∧ 1 ≤ d.day ∧
    d.day ≤ daysInMonth (isLeap d.year) d.month

instance (d : Date) : Decidable d.Valid := by
  unfold Date.Valid; infer_instance

/-- Leap years strictly before year `y`. -/
def leapsBefore (y : Nat) : Nat :=
  (y - 1) / 4 - (y - 1) / 100 + (y - 1) / 400

/-- Proleptic-Gregorian ordinal of a date; `⟨1,1,1⟩.ord = 1`, matching
Python's `date.toordinal`. -/
def Date.ord (d : Date) : Nat :=
  365 * (d.year - 1) + leapsBefore d.year +
    daysBeforeMonth (isLeap d.year) d.month + d.day

/-- The day after `d`. -/
def succDay (d : Date) : Date :=
  if d.day < daysInMonth (isLeap d.year) d.month then ⟨d.year, d.month, d.day + 1⟩
  else if d.month < 12 then ⟨d.year, d.month + 1, 1⟩
  else ⟨d.year + 1, 1, 1⟩

/-- The day before `d`. -/
def predDay (d : Date) : Date :=
  if 1 < d.day then ⟨d.year, d.month, d.day - 1⟩
  else if 1 < d.month then ⟨d.year, d.month - 1, daysInMonth (isLeap d.year) (d.month - 1)⟩
  else ⟨d.year - 1, 12, 31⟩

/-- `d + timedelta(days=n)` for `n ≥ 0`. -/
def addDays (n : Nat) (d : Date) : Date := succDay^[n] d

/-- `d - timedelta(days=n)` for `n ≥ 0`. -/
def subDays (n : Nat) (d : Date) : Date := predDay^[n] d

/-- `d + timedelta(days=n)` for a signed `n`. -/
def addDaysI (n : Int) (d : Date) : Date :=
  if 0 ≤ n then addDays n.toNat d else subDays (-n).toNat d

/-- Python's `date.weekday()`: 0 = Monday ... 6 = Sunday. -/
def weekday (d : Date) : Nat := (d.ord + 6) % 7

/-- Python's `date.isoweekday()`: 1 = Monday ... 7 = Sunday. -/
def isoweekday (d : Date) : Nat := weekday d + 1

/-- Strict lexicographic order on dates, the order Python's `datetime`
comparison induces on the date fields. -/
def Date.lex (a b : Date) : Prop :=
  a.year < b.year ∨ (a.year = b.year ∧
    (a.month < b.month ∨ (a.month = b.month ∧ a.day < b.day)))

instance (a b : Date) : Decidable (Date.lex a b) := by
  unfold Date.lex; infer_instance

/-- A datetime: a civil date plus seconds since midnight. -/
structure DateTime where
  date : Date
  secs : Nat
deriving DecidableEq, Repr

def DateTime.Valid (t : DateTime) : Prop := t.date.Valid ∧ t.secs < 86400

instance (t : DateTime) : Decidable t.Valid := by
  unfold DateTime.Valid; infer_instance

/-- Python `datetime` strict comparison `a < b`. -/
def DateTime.lt (a b : DateTime) : Prop :=
  Date.lex a.date b.date ∨ (a.date = b.date ∧ a.secs < b.secs)

instance (a b : DateTime) : Decidable (DateTime.lt a b) := by
  unfold DateTime.lt; infer_instance

/-- Python `datetime` comparison `a <= b`. -/
def DateTime.le (a b : DateTime) : Prop := DateTime.lt a b ∨ a = b

instance (a b : DateTime) : Decidable (DateTime.le a b) := by
  unfold DateTime.le; infer_instance

/-- Seconds since the epoch of the ordinal count; linearises a datetime. -/
def totalSecs (t : DateTime) : Nat := 86400 * t.date.ord + t.secs

/-- `t + timedelta(seconds=s)` for `s ≥ 0`: seconds carry into days, as in
Python's normalised `timedelta` addition. -/
def addSecs (s : Nat) (t : DateTime) : DateTime :=
  ⟨addDays ((t.secs + s) / 86400) t.date, (t.secs + s) % 86400⟩

/-- `t.replace(hour=0, minute=0, second=0, microsecond=0)`. -/
def setMidnight (t : DateTime) : DateTime := ⟨t.date, 0⟩

/-- `t.replace(hour=h, minute=m, second=s, microsecond=0)`; raises
`ValueError` when a field is out of range, as Python's `replace` does. -/
def pyReplaceTime (t : DateTime) (h m s : Int) : Except String DateTime :=
  if 0 ≤ h ∧ h ≤ 23 ∧ 0 ≤ m ∧ m ≤ 59 ∧ 0 ≤ s ∧ s ≤ 59 then
    .ok ⟨t.date, h.toNat * 3600 + m.toNat * 60 + s.toNat⟩
  else .error "ValueError: time field out of range"

/-- Validated construction of a date, as by `datetime(y, m, d)` (the
year-9999 cap is not modelled). -/
def mkDate (y m d : Int) : Except String Date :=
  if 1 ≤ y ∧ 1 ≤ m ∧ m ≤ 12 ∧ 1 ≤ d ∧
      d ≤ (daysInMonth (isLeap y.toNat) m.toNat : Int) then
    .ok ⟨y.toNat, m.toNat, d.toNat⟩
  else .error "ValueError: day is out of range for month"

/-! ## Calendar lemmas -/

theorem daysInMonth_pos (l : Bool) : ∀ m < 13, 1 ≤ m → 1 ≤ daysInMonth l m := by
  cases l <;> decide

theorem daysInMonth_ge_28 (l : Bool) : ∀ m < 13, 1 ≤ m → 28 ≤ daysInMonth l m := by
  cases l <;> decide

theorem daysInMonth_le_31 (l : Bool) : ∀ m < 13, daysInMonth l m ≤ 31 := by
  cases l <;> decide

theorem dbm_succ (l : Bool) :
    ∀ m < 12, 1 ≤ m →
      daysBeforeMonth l (m + 1) = daysBeforeMonth l m + daysInMonth l m := by
  cases l <;> decide

theorem dbm_step_le (l : Bool) :
    ∀ m < 13, ∀ m' < 13, 1 ≤ m → m < m' →
      daysBeforeMonth l m + daysInMonth l m ≤ daysBeforeMonth l m' := by
  cases l <;> decide

theorem dbm_day_le_year (l : Bool) :
    ∀ m < 13, ∀ d < 32, 1 ≤ m → d ≤ daysInMonth l m →
      daysBeforeMonth l m + d ≤ 365 + (if l then 1 else 0) := by
  cases l <;> decide

theorem dbm_twelve (l : Bool) :
    daysBeforeMonth l 12 + 31 = 365 + (if l then 1 else 0) := by
  cases l <;> decide

theorem isLeap_iff (y : Nat) :
    isLeap y = true ↔ ((y % 4 = 0 ∧ ¬ y % 100 = 0) ∨ y % 400 = 0) := by
  simp [isLeap, Bool.or_eq_true, Bool.and_eq_true, beq_iff_eq, bne_iff_ne]

theorem leapsBefore_succ (y : Nat) (hy : 1 ≤ y) :
    leapsBefore (y + 1) = leapsBefore y + (if isLeap y then 1 else 0) := by
  obtain ⟨a, rfl⟩ : ∃ a, y = a + 1 := ⟨y - 1, by omega⟩
  have h4 : (a + 1) / 4 = a / 4 + if (a + 1) % 4 = 0 then 1 else 0 := by
    rw [Nat.succ_div]; congr 1
    simp [Nat.dvd_iff_mod_eq_zero]
  have h100 : (a + 1) / 100 = a / 100 + if (a + 1) % 100 = 0 then 1 else 0 := by
    rw [Nat.succ_div]; congr 1
    simp [Nat.dvd_iff_mod_eq_zero]
  have h400 : (a + 1) / 400 = a / 400 + if (a + 1) % 400 = 0 then 1 else 0 := by
    rw [Nat.succ_div]; congr 1
    simp [Nat.dvd_iff_mod_eq_zero]
  have hle1 : a / 100 ≤ a / 4 := Nat.div_le_div_left (by omega) (by omega)
  have hiff := isLeap_iff (a + 1)
  unfold leapsBefore
  simp only [Nat.add_sub_cancel]
  by_cases c4 : (a + 1) % 4 = 0 <;> by_cases c100 : (a + 1) % 100 = 0 <;>
    by_cases c400 : (a + 1) % 400 = 0
  all_goals (try (exfalso; omega))
  all_goals (
    first
    | (have hL : isLeap (a + 1) = true := hiff.mpr (by tauto)
       rw [h4, h100, h400, if_pos hL]
       simp only [c4, c100, c400, if_pos, if_neg, if_true, if_false]
       omega)
    | (have hL : ¬ isLeap (a + 1) = true := by
         rw [hiff]; tauto
       rw [h4, h100, h400, if_neg hL]
       simp only [c4, c100, c400, if_pos, if_neg, if_true, if_false]
       omega))

theorem ord_succDay (d : Date) (h : d.Valid) : (succDay d).ord = d.ord + 1 := by
  obtain ⟨y, m, dd⟩ := d
  obtain ⟨hy, hm1, hm2, hd1, hd2⟩ := h
  dsimp only at hy hm1 hm2 hd1 hd2
  unfold succDay
  dsimp only
  split_ifs with h1 h2
  · simp only [Date.ord]; omega
  · have hdd : dd = daysInMonth (isLeap y) m := by omega
    have hstep := dbm_succ (isLeap y) m (by omega) (by omega)
    simp only [Date.ord]
    omega
  · have hm : m = 12 := by omega
    subst hm
    have hdd : dd = 31 := by
      have : daysInMonth (isLeap y) 12 = 31 := by cases hL : isLeap y <;> rfl
      omega
    subst hdd
    have hlb := leapsBefore_succ y hy
    have htw := dbm_twelve (isLeap y)
    have h1' : daysBeforeMonth (isLeap (y + 1)) 1 = 0 := rfl
    simp only [Date.ord, h1']
    split_ifs at hlb htw <;> omega

theorem valid_succDay (d : Date) (h : d.Valid) : (succDay d).Valid := by
  obtain ⟨y, m, dd⟩ := d
  obtain ⟨hy, hm1, hm2, hd1, hd2⟩ := h
  dsimp only at hy hm1 hm2 hd1 hd2
  unfold succDay
  dsimp only
  split_ifs with h1 h2
  · exact ⟨hy, hm1, hm2, by dsimp only; omega, by dsimp only at h1 ⊢; omega⟩
  · refine ⟨hy, by dsimp only; omega, by dsimp only; omega, by dsimp only; omega, ?_⟩
    dsimp only
    have := daysInMonth_pos (isLeap y) (m + 1) (by omega) (by omega)
    omega
  · refine ⟨by dsimp only; omega, by dsimp only; omega, by dsimp only; omega,
      by dsimp only; omega, ?_⟩
    dsimp only
    have h31 : daysInMonth (isLeap (y + 1)) 1 = 31 := by cases hL : isLeap (y + 1) <;> rfl
    omega

theorem valid_addDays (n : Nat) (d : Date) (h : d.Valid) : (addDays n d).Valid := by
  induction n with
  | zero => simpa [addDays] using h
  | succ k ih =>
      have : addDays (k + 1) d = succDay (addDays k d) := Function.iterate_succ_apply' _ _ _
      rw [this]
      exact valid_succDay _ ih

theorem ord_addDays (n : Nat) (d : Date) (h : d.Valid) :
    (addDays n d).ord = d.ord + n := by
  induction n with
  | zero => simp [addDays]
  | succ k ih =>
      have heq : addDays (k + 1) d = succDay (addDays k d) := Function.iterate_succ_apply' _ _ _
      rw [heq, ord_succDay _ (valid_addDays k d h), ih]
      omega

/-- `365*(y-1) + leapsBefore y`, the ordinal contribution of whole years. -/
theorem yearBase_mono (y y' : Nat) (hy : 1 ≤ y) (h : y ≤ y') :
    365 * (y - 1) + leapsBefore y ≤ 365 * (y' - 1) + leapsBefore y' := by
  induction y', h using Nat.le_induction with
  | base => omega
  | succ n hn ih =>
      have := leapsBefore_succ n (by omega)
      split_ifs at this <;> omega

theorem ord_lt_of_lex (a b : Date) (ha : a.Valid) (hb : b.Valid) (hl : a.lex b) :
    a.ord < b.ord := by
  obtain ⟨ya, ma, da⟩ := a
  obtain ⟨yb, mb, db⟩ := b
  obtain ⟨hya, hma1, hma2, hda1, hda2⟩ := ha
  obtain ⟨hyb, hmb1, hmb2, hdb1, hdb2⟩ := hb
  simp only at hya hma1 hma2 hda1 hda2 hyb hmb1 hmb2 hdb1 hdb2
  simp only [Date.lex] at hl
  simp only [Date.ord]
  have hlim_a : da < 32 := by
    have := daysInMonth_le_31 (isLeap ya) ma (by omega)
    omega
  rcases hl with hy | ⟨hyeq, hrest⟩
  · -- strictly later year
    have hbound := dbm_day_le_year (isLeap ya) ma (by omega) da hlim_a (by omega) hda2
    have hlb := leapsBefore_succ ya hya
    have hmono := yearBase_mono (ya + 1) yb (by omega) (by omega)
    have hdbm_b : 0 ≤ daysBeforeMonth (isLeap yb) mb := Nat.zero_le _
    split_ifs at hbound hlb <;> omega
  · subst hyeq
    rcases hrest with hm | ⟨hmeq, hd⟩
    · have hstep := dbm_step_le (isLeap ya) ma (by omega) mb (by omega) (by omega) hm
      omega
    · subst hmeq; omega

theorem lex_trichotomy (a b : Date) : a.lex b ∨ a = b ∨ b.lex a := by
  obtain ⟨ya, ma, da⟩ := a
  obtain ⟨yb, mb, db⟩ := b
  simp only [Date.lex, Date.mk.injEq]
  omega

theorem lex_of_ord_lt (a b : Date) (ha : a.Valid) (hb : b.Valid)
    (h : a.ord < b.ord) : a.lex b := by
  rcases lex_trichotomy a b with hl | rfl | hl
  · exact hl
  · omega
  · exact absurd (ord_lt_of_lex b a hb ha hl) (by omega)

theorem lex_iff_ord_lt (a b : Date) (ha : a.Valid) (hb : b.Valid) :
    a.lex b ↔ a.ord < b.ord :=
  ⟨ord_lt_of_lex a b ha hb, lex_of_ord_lt a b ha hb⟩

theorem dtLt_iff_totalSecs (a b : DateTime) (ha : a.Valid) (hb : b.Valid) :
    DateTime.lt a b ↔ totalSecs a < totalSecs b := by
  constructor
  · intro h
    rcases h with hl | ⟨heq, hs⟩
    · have := ord_lt_of_lex a.date b.date ha.1 hb.1 hl
      unfold totalSecs
      have hsa := ha.2
      omega
    · unfold totalSecs; rw [heq]; omega
  · intro h
    rcases lex_trichotomy a.date b.date with hl | heq | hl
    · exact Or.inl hl
    · exact Or.inr ⟨heq, by unfold totalSecs at h; rw [heq] at h; omega⟩
    · exfalso
      have := ord_lt_of_lex b.date a.date hb.1 ha.1 hl
      unfold totalSecs at h
      have hsb := hb.2
      omega

theorem dt_inj_totalSecs (a b : DateTime) (ha : a.Valid) (hb : b.Valid)
    (h : totalSecs a = totalSecs b) : a = b := by
  rcases lex_trichotomy a.date b.date with hl | heq | hl
  · have := ord_lt_of_lex a.date b.date ha.1 hb.1 hl
    unfold totalSecs at h
    have := ha.2
    omega
  · obtain ⟨da, sa⟩ := a
    obtain ⟨db, sb⟩ := b
    dsimp only at heq
    subst heq
    unfold totalSecs at h
    dsimp only at h
    simp only [DateTime.mk.injEq]
    exact ⟨trivial, by omega⟩
  · have := ord_lt_of_lex b.date a.date hb.1 ha.1 hl
    unfold totalSecs at h
    have := hb.2
    omega

theorem dtLe_iff_totalSecs (a b : DateTime) (ha : a.Valid) (hb : b.Valid) :
    DateTime.le a b ↔ totalSecs a ≤ totalSecs b := by
  unfold DateTime.le
  rw [dtLt_iff_totalSecs a b ha hb]
  constructor
  · rintro (h | rfl) <;> omega
  · intro h
    rcases Nat.lt_or_ge (totalSecs a) (totalSecs b) with hlt | hge
    · exact Or.inl hlt
    · exact Or.inr (dt_inj_totalSecs a b ha hb (by omega))

theorem valid_addSecs (s : Nat) (t : DateTime) (h : t.Valid) :
    (addSecs s t).Valid :=
  ⟨valid_addDays _ _ h.1, Nat.mod_lt _ (by omega)⟩

theorem totalSecs_addSecs (s : Nat) (t : DateTime) (h : t.Valid) :
    totalSecs (addSecs s t) = totalSecs t + s := by
  unfold addSecs totalSecs
  simp only
  rw [ord_addDays _ _ h.1]
  have := Nat.div_add_mod (t.secs + s) 86400
  omega

theorem addDays_add (a b : Nat) (d : Date) :
    addDays (a + b) d = addDays b (addDays a d) := by
  unfold addDays
  rw [Nat.add_comm, Function.iterate_add_apply]

theorem addDays_within (k y m dd : Nat)
    (hk : dd + k ≤ daysInMonth (isLeap y) m) :
    addDays k ⟨y, m, dd⟩ = ⟨y, m, dd + k⟩ := by
  induction k with
  | zero => simp [addDays]
  | succ n ih =>
      have heq : addDays (n + 1) (⟨y, m, dd⟩ : Date) = succDay (addDays n ⟨y, m, dd⟩) :=
        Function.iterate_succ_apply' _ _ _
      rw [heq, ih (by omega)]
      unfold succDay
      dsimp only
      split_ifs with h1 h2
      · simp only [Date.mk.injEq, true_and]
        omega
      · exfalso; omega
      · exfalso; omega

theorem succDay_last (y m : Nat) :
    succDay ⟨y, m, daysInMonth (isLeap y) m⟩ =
      if m < 12 then (⟨y, m + 1, 1⟩ : Date) else ⟨y + 1, 1, 1⟩ := by
  unfold succDay
  dsimp only
  rw [if_neg (by omega)]

/-! ## String-level parsing helpers (model of the Python string handling in
`tools/sys/calcNextSyncDatetime.py`; Python strings become `List Char`) -/

/-- Numeric value of a digit string. -/
def digitsVal (s : List Char) : Nat :=
  s.foldl (fun acc c => 10 * acc + (c.toNat - '0'.toNat)) 0

/-- Python's `int(s)`: an optional sign followed by digits.  (Python's
`int` additionally strips whitespace and allows `_` digit separators;
neither form can reach the call sites here, where the argument is a piece
of a `split` on `_` or `:`.) -/
def pyInt (s : List Char) : Except String Int :=
  match s with
  | '-' :: rest =>
      if rest ≠ [] ∧ rest.all Char.isDigit then .ok (-(digitsVal rest : Int))
      else .error "ValueError: invalid literal for int"
  | '+' :: rest =>
      if rest ≠ [] ∧ rest.all Char.isDigit then .ok (digitsVal rest : Int)
      else .error "ValueError: invalid literal for int"
  | _ =>
      if s ≠ [] ∧ s.all Char.isDigit then .ok (digitsVal s : Int)
      else .error "ValueError: invalid literal for int"

/-- `map(int, s.split(":"))` unpacked into exactly three values, as in
`start_hour, start_minute, start_second = map(int, start_time.split(":"))`. -/
def parseHMS (s : List Char) : Except String (Int × Int × Int) :=
  match s.splitOn ':' with
  | [a, b, c] => do
      let x ← pyInt a
      let y ← pyInt b
      let z ← pyInt c
      return (x, y, z)
  | _ => .error "ValueError: cannot unpack time string"

/-- `period.split("_")[-1]`; `split` never returns an empty list, so the
default is unreachable. -/
def lastPiece (p : List Char) : List Char := (p.splitOn '_').getLastD []

/-- `parse_step`: `"0"` means no step, otherwise `re.match(r"(\d+)([hms])")`
anchored at the start (a trailing remainder is ignored, as `re.match` does);
no match raises `ValueError`. -/
def parse_step (s : List Char) : Except String Nat :=
  if s = "0".data then .ok 0
  else
    let ds := s.takeWhile Char.isDigit
    if ds = [] then .error "ValueError: Invalid step format"
    else
      match s.drop ds.length with
      | 'h' :: _ => .ok (digitsVal ds * 3600)
      | 'm' :: _ => .ok (digitsVal ds * 60)
      | 's' :: _ => .ok (digitsVal ds)
      | _ => .error "ValueError: Invalid step format"

/-- `re.match(r"\d{4}-\d{2}-\d{2}", period)`: a prefix match only. -/
def dateRegex (p : List Char) : Bool :=
  match p with
  | a :: b :: c :: d :: '-' :: e :: f :: '-' :: g :: h :: _ =>
      a.isDigit && b.isDigit && c.isDigit && d.isDigit &&
        e.isDigit && f.isDigit && g.isDigit && h.isDigit
  | _ => false

/-- `datetime.strptime(period, "%Y-%m-%d")`: the whole string must be
consumed and the date must be constructible. -/
def strptimeYMD (p : List Char) : Except String Date :=
  match p with
  | [a, b, c, d, '-', e, f, '-', g, h] =>
      if a.isDigit && b.isDigit && c.isDigit && d.isDigit &&
          e.isDigit && f.isDigit && g.isDigit && h.isDigit then
        mkDate (digitsVal [a, b, c, d] : Nat) (digitsVal [e, f] : Nat) (digitsVal [g, h] : Nat)
      else .error "ValueError: time data does not match format"
  | _ => .error "ValueError: unconverted data remains"

/-- `re.match(r"every_month(\d+)_L", period)`: anchored prefix match;
yields the month number. -/
def monthLNum (p : List Char) : Option Nat :=
  if "every_month".data.isPrefixOf p then
    let rest := p.drop 11
    let ds := rest.takeWhile Char.isDigit
    if ds ≠ [] ∧ "_L".data.isPrefixOf (rest.drop ds.length) then some (digitsVal ds)
    else none
  else none

/-- `re.match(r"every_month(\d+)_(\d+)", period)`: anchored prefix match;
yields month and day numbers. -/
def monthMDNums (p : List Char) : Option (Nat × Nat) :=
  if "every_month".data.isPrefixOf p then
    let rest := p.drop 11
    let ds := rest.takeWhile Char.isDigit
    if ds = [] then none
    else
      match rest.drop ds.length with
      | '_' :: rest2 =>
          let ds2 := rest2.takeWhile Char.isDigit
          if ds2 = [] then none else some (digitsVal ds, digitsVal ds2)
      | _ => none
  else none

/-! ## The calculator `calcNextSyncDatetime` -/

/-- The `while next_date.weekday() >= 5` loop of the `every_wDay` branch.
The loop body runs at most twice, so fuel 7 is never exhausted. -/
def wDayLoop : Nat → Date → Date
  | 0, d => d
  | f + 1, d => if 5 ≤ weekday d then wDayLoop f (addDays 1 d) else d

/-- The fallback `next_date = …replace(day=1); next_date += timedelta(days=32);
next_date = next_date.replace(day=1) - timedelta(days=1)` sequence computing
the last day of the month of `d1`; it keeps midnight. -/
def lastDayFrom (d1 : Date) : Date :=
  predDay ⟨(addDays 32 d1).year, (addDays 32 d1).month, 1⟩

/-- `get_next_base_date`: the next qualifying calendar day (at midnight)
for each recognised period shape, `ValueError` otherwise.  Branches appear
in the source's order. -/
def get_next_base_date (current : DateTime) (period : List Char) :
    Except String DateTime :=
  if period = "every_day".data then
    .ok ⟨addDays 1 current.date, 0⟩
  else if "every_day_".data.isPrefixOf period then
    match pyInt (lastPiece period) with
    | .error e => .error e
    | .ok days => .ok ⟨addDaysI days current.date, 0⟩
  else if period = "every_wDay".data then
    .ok ⟨wDayLoop 7 (addDays 1 current.date), 0⟩
  else if "every_week_".data.isPrefixOf period then
    match pyInt (lastPiece period) with
    | .error e => .error e
    | .ok target =>
        let ahead := target - (isoweekday current.date : Int)
        let ahead := if ahead ≤ 0 then ahead + 7 else ahead
        .ok ⟨addDaysI ahead current.date, 0⟩
  else if "every_month_".data.isPrefixOf period then
    match pyInt (lastPiece period) with
    | .error e => .error e
    | .ok day =>
        if (current.date.day : Int) < day then
          match mkDate current.date.year current.date.month day with
          | .error e => .error e
          | .ok d => .ok ⟨d, 0⟩
        else
          let nm0 := current.date.month + 1
          let nm := if nm0 > 12 then 1 else nm0
          let ny := if nm0 > 12 then current.date.year + 1 else current.date.year
          match mkDate ny nm day with
          | .ok d => .ok ⟨d, 0⟩
          | .error _ =>
              match mkDate ny nm 1 with
              | .error e => .error e
              | .ok d1 => .ok ⟨lastDayFrom d1, 0⟩
  else if "_L".data.isSuffixOf period then
    match monthLNum period with
    | none => .error "ValueError: Invalid month_L format"
    | some month =>
        let ny :=
          if current.date.month < month ∨
              (current.date.month = month ∧ current.date.day < 28) then
            current.date.year
          else current.date.year + 1
        match mkDate ny month 1 with
        | .error e => .error e
        | .ok d1 => .ok ⟨lastDayFrom d1, 0⟩
  else
    match monthMDNums period with
    | some (month, day) =>
        let ny :=
          if current.date.month < month ∨
              (current.date.month = month ∧ current.date.day < day) then
            current.date.year
          else current.date.year + 1
        (match mkDate ny month day with
         | .ok d => .ok ⟨d, 0⟩
         | .error _ =>
             match mkDate ny month 1 with
             | .error e => .error e
             | .ok d1 => .ok ⟨lastDayFrom d1, 0⟩)
    | none => .error "ValueError: Invalid period format"

/-- The `generate_exec_times` while-loop; the fuel below never truncates
it because every call site has a positive step. -/
def genAux : Nat → DateTime → DateTime → Nat → List DateTime
  | 0, _, _, _ => []
  | f + 1, cur, e, step =>
      if DateTime.le cur e then cur :: genAux f (addSecs step cur) e step else []

/-- `generate_exec_times(start_dt, end_dt, step_sec)`. -/
def generate_exec_times (s e : DateTime) (step : Nat) : List DateTime :=
  genAux (totalSecs e + 1 - totalSecs s) s e step

/-- The tail of the calculator after start/end/step have been parsed: the
direct-date branch, then the step-0 and stepped regimes. -/
def calcAfterParse (current : DateTime) (period : List Char)
    (sh sm ss eh em es : Int) (stepSeconds : Nat) : Except String DateTime :=
  if dateRegex period then
    match strptimeYMD period with
    | .error e => .error e
    | .ok td => pyReplaceTime ⟨td, 0⟩ sh sm ss
  else
    match pyReplaceTime (setMidnight current) sh sm ss,
        pyReplaceTime (setMidnight current) eh em es with
    | .error e, _ => .error e
    | .ok _, .error e => .error e
    | .ok todayStart, .ok todayEnd =>
      if stepSeconds = 0 then
        if DateTime.lt current todayStart then .ok todayStart
        else
          match get_next_base_date current period with
          | .error e => .error e
          | .ok nextBase =>
              match pyReplaceTime nextBase sh sm ss, pyReplaceTime nextBase eh em es with
              | .error e, _ => .error e
              | .ok _, .error e => .error e
              | .ok nextStart, .ok _ => .ok nextStart
      else
        match (generate_exec_times todayStart todayEnd stepSeconds).find?
            (fun t => decide (DateTime.lt current t)) with
        | some t => .ok t
        | none =>
            match get_next_base_date current period with
            | .error e => .error e
            | .ok nextBase =>
                match pyReplaceTime nextBase sh sm ss, pyReplaceTime nextBase eh em es with
                | .error e, _ => .error e
                | .ok _, .error e => .error e
                | .ok nextStart, .ok nextEnd =>
                    match (generate_exec_times nextStart nextEnd stepSeconds).head? with
                    | some x => .ok x
                    | none => .error "IndexError: list index out of range"

/-- The calculator `calcNextSyncDatetime(current_datetime, period,
start_time, end_time, step)`; exceptions become `.error`. -/
def calcNextSyncDatetime (current : DateTime) (period : List Char)
    (start_time : List Char := "00:00:00".data)
    (end_time : List Char := "23:59:59".data)
    (step : List Char := "0".data) : Except String DateTime :=
  match parseHMS start_time with
  | .error e => .error e
  | .ok (sh, sm, ss) =>
    match parseHMS end_time with
    | .error e => .error e
    | .ok (eh, em, es) =>
      match parse_step step with
      | .error e => .error e
      | .ok stepSeconds => calcAfterParse current period sh sm ss eh em es stepSeconds

/-! ## Helper lemmas for the calculator proofs -/

theorem isPrefix_exists {pre p : List Char} (h : pre.isPrefixOf p) :
    ∃ t, p = pre ++ t := by
  rw [List.isPrefixOf_iff_prefix] at h
  obtain ⟨t, ht⟩ := h
  exact ⟨t, ht.symm⟩

theorem addDays_one (d : Date) : addDays 1 d = succDay d := by
  simp [addDays]

theorem mkDate_ok {y m d : Int} {dd : Date} (h : mkDate y m d = .ok dd) :
    dd = ⟨y.toNat, m.toNat, d.toNat⟩ ∧ 1 ≤ y ∧ 1 ≤ m ∧ m ≤ 12 ∧ 1 ≤ d ∧
      d ≤ (daysInMonth (isLeap y.toNat) m.toNat : Int) ∧ dd.Valid := by
  unfold mkDate at h
  split_ifs at h with hc
  · obtain ⟨h1, h2, h3, h4, h5⟩ := hc
    cases h
    refine ⟨rfl, h1, h2, h3, h4, h5, ?_, ?_, ?_, ?_, ?_⟩ <;> dsimp only <;> omega

theorem wDayLoop_valid (f : Nat) (d : Date) (h : d.Valid) : (wDayLoop f d).Valid := by
  induction f generalizing d with
  | zero => exact h
  | succ n ih =>
      unfold wDayLoop
      split_ifs with hw
      · exact ih _ (valid_addDays 1 d h)
      · exact h

theorem wDayLoop_ord_ge (f : Nat) (d : Date) (h : d.Valid) :
    d.ord ≤ (wDayLoop f d).ord := by
  induction f generalizing d with
  | zero => exact Nat.le_refl _
  | succ n ih =>
      unfold wDayLoop
      split_ifs with hw
      · have h1 := ih (addDays 1 d) (valid_addDays 1 d h)
        have h2 := ord_addDays 1 d h
        omega
      · exact Nat.le_refl _

theorem lastDayFrom_first (y m : Nat) (hm1 : 1 ≤ m) (hm2 : m ≤ 12) :
    lastDayFrom ⟨y, m, 1⟩ = ⟨y, m, daysInMonth (isLeap y) m⟩ := by
  unfold lastDayFrom
  have hL28 := daysInMonth_ge_28 (isLeap y) m (by omega) hm1
  have hL31 := daysInMonth_le_31 (isLeap y) m (by omega)
  have hsplit : (32 : Nat) =
      (daysInMonth (isLeap y) m - 1) + (1 + (32 - daysInMonth (isLeap y) m)) := by omega
  rw [hsplit, addDays_add, addDays_within _ y m 1 (by omega)]
  have h1 : 1 + (daysInMonth (isLeap y) m - 1) = daysInMonth (isLeap y) m := by omega
  rw [h1, addDays_add 1 _, addDays_one, succDay_last]
  by_cases hm12 : m < 12
  · rw [if_pos hm12]
    have hd : (1 : Nat) + (32 - daysInMonth (isLeap y) m) ≤ daysInMonth (isLeap y) (m + 1) := by
      have := daysInMonth_ge_28 (isLeap y) (m + 1) (by omega) (by omega)
      omega
    rw [addDays_within _ y (m + 1) 1 hd]
    dsimp only
    unfold predDay
    dsimp only
    rw [if_neg (by omega), if_pos (by omega)]
    simp only [Date.mk.injEq, Nat.add_sub_cancel]
  · have hm' : m = 12 := by omega
    subst hm'
    rw [if_neg hm12]
    have hL : daysInMonth (isLeap y) 12 = 31 := by cases hI : isLeap y <;> rfl
    rw [hL]
    norm_num
    have hd : (1 : Nat) + 1 ≤ daysInMonth (isLeap (y + 1)) 1 := by
      have : daysInMonth (isLeap (y + 1)) 1 = 31 := by cases hI : isLeap (y + 1) <;> rfl
      omega
    rw [addDays_within 1 (y + 1) 1 1 hd]
    dsimp only
    unfold predDay
    dsimp only
    rw [if_neg (by omega), if_neg (by omega)]
    simp only [Date.mk.injEq, Nat.add_sub_cancel]

theorem monthLNum_startsWith {p : List Char} {m : Nat} (h : monthLNum p = some m) :
    "every_month".data.isPrefixOf p := by
  unfold monthLNum at h
  split_ifs at h with h1
  exact h1

theorem monthMDNums_startsWith {p : List Char} {md : Nat × Nat}
    (h : monthMDNums p = some md) : "every_month".data.isPrefixOf p := by
  unfold monthMDNums at h
  split_ifs at h with h1
  exact h1

theorem monthMD_none_of_monthL {p : List Char} {m : Nat}
    (h : monthLNum p = some m) : monthMDNums p = none := by
  have hpre := monthLNum_startsWith h
  unfold monthLNum at h
  rw [if_pos hpre] at h
  dsimp only at h
  split_ifs at h with h2
  obtain ⟨hds, hL⟩ := h2
  obtain ⟨t, ht⟩ := isPrefix_exists hL
  unfold monthMDNums
  rw [if_pos hpre]
  dsimp only
  rw [if_neg (by simpa using hds), ht]
  rfl

theorem addDaysI_pos (n : Int) (hn : 1 ≤ n) (d : Date) (hd : d.Valid) :
    (addDaysI n d).Valid ∧ d.ord < (addDaysI n d).ord := by
  unfold addDaysI
  rw [if_pos (by omega)]
  refine ⟨valid_addDays _ _ hd, ?_⟩
  rw [ord_addDays _ _ hd]
  omega

/-- The recurring period shapes for which the base date computed by
`get_next_base_date` falls strictly after the anchor's calendar day
whenever the computation succeeds: `every_day`; `every_day_N` with `N ≥ 1`;
`every_wDay`; `every_week_D` with `D ≥ 1`; every `every_month_D`; every
`every_monthM_L`; and `every_monthM_D` except when the anchor sits on the
last day of month `M` while `D` exceeds that month's length (there the
clamping fallback reproduces the anchor's own day). -/
def GoodPeriod (a : DateTime) (period : List Char) : Prop :=
  period = "every_day".data ∨
  ("every_day_".data.isPrefixOf period ∧
    ∃ n : Int, pyInt (lastPiece period) = .ok n ∧ 1 ≤ n) ∨
  period = "every_wDay".data ∨
  ("every_week_".data.isPrefixOf period ∧
    ∃ n : Int, pyInt (lastPiece period) = .ok n ∧ 1 ≤ n) ∨
  "every_month_".data.isPrefixOf period ∨
  (∃ m : Nat, monthLNum period = some m) ∨
  (∃ md : Nat × Nat, monthMDNums period = some md ∧
    ¬(a.date.month = md.1 ∧ a.date.day = daysInMonth (isLeap a.date.year) md.1 ∧
      daysInMonth (isLeap a.date.year) md.1 < md.2))

theorem base_date_advances (a : DateTime) (period : List Char) (b : DateTime)
    (ha : a.Valid) (hg : GoodPeriod a period)
    (hb : get_next_base_date a period = .ok b) :
    b.Valid ∧ Date.lex a.date b.date ∧ b.secs = 0 := by
  have hav := ha.1
  obtain ⟨hay, ham1, ham2, had1, had2⟩ := ha.1
  unfold get_next_base_date at hb
  split_ifs at hb with c1 c2 c3 c4 c5 c6
  · -- every_day
    injection hb with hb
    subst hb
    refine ⟨⟨valid_addDays 1 a.date hav, by norm_num⟩, ?_, rfl⟩
    apply lex_of_ord_lt _ _ hav (valid_addDays 1 a.date hav)
    rw [ord_addDays 1 a.date hav]
    omega
  · -- every_day_N
    have hn : ∃ n : Int, pyInt (lastPiece period) = .ok n ∧ 1 ≤ n := by
      rcases hg with h | h | h | h | h | h | h
      · exact absurd h c1
      · exact h.2
      · rw [h] at c2; exact absurd c2 (by decide)
      · obtain ⟨t, rfl⟩ := isPrefix_exists h.1
        simp [List.isPrefixOf] at c2
      · obtain ⟨t, rfl⟩ := isPrefix_exists h
        simp [List.isPrefixOf] at c2
      · obtain ⟨m, hm⟩ := h
        obtain ⟨t, rfl⟩ := isPrefix_exists (monthLNum_startsWith hm)
        simp [List.isPrefixOf] at c2
      · obtain ⟨md, hm, _⟩ := h
        obtain ⟨t, rfl⟩ := isPrefix_exists (monthMDNums_startsWith hm)
        simp [List.isPrefixOf] at c2
    obtain ⟨n, hpe, hn1⟩ := hn
    rw [hpe] at hb
    injection hb with hb
    subst hb
    obtain ⟨hv, ho⟩ := addDaysI_pos n hn1 a.date hav
    exact ⟨⟨hv, by norm_num⟩, lex_of_ord_lt _ _ hav hv ho, rfl⟩
  · -- every_wDay
    injection hb with hb
    subst hb
    have hv1 := valid_addDays 1 a.date hav
    have hv := wDayLoop_valid 7 _ hv1
    refine ⟨⟨hv, by norm_num⟩, ?_, rfl⟩
    apply lex_of_ord_lt _ _ hav hv
    have h1 := wDayLoop_ord_ge 7 _ hv1
    have h2 := ord_addDays 1 a.date hav
    omega
  · -- every_week_D
    have hn : ∃ n : Int, pyInt (lastPiece period) = .ok n ∧ 1 ≤ n := by
      rcases hg with h | h | h | h | h | h | h
      · exact absurd h c1
      · exact absurd h.1 c2
      · exact absurd h c3
      · exact h.2
      · obtain ⟨t, rfl⟩ := isPrefix_exists h
        simp [List.isPrefixOf] at c4
      · obtain ⟨m, hm⟩ := h
        obtain ⟨t, rfl⟩ := isPrefix_exists (monthLNum_startsWith hm)
        simp [List.isPrefixOf] at c4
      · obtain ⟨md, hm, _⟩ := h
        obtain ⟨t, rfl⟩ := isPrefix_exists (monthMDNums_startsWith hm)
        simp [List.isPrefixOf] at c4
    obtain ⟨n, hpe, hn1⟩ := hn
    rw [hpe] at hb
    dsimp only at hb
    have hwk : weekday a.date < 7 := Nat.mod_lt _ (by omega)
    have hiso : (isoweekday a.date : Int) ≤ 7 := by
      unfold isoweekday; omega
    by_cases hc : n - (isoweekday a.date : Int) ≤ 0
    · rw [if_pos hc] at hb
      injection hb with hb
      subst hb
      obtain ⟨hv, ho⟩ :=
        addDaysI_pos (n - (isoweekday a.date : Int) + 7) (by omega) a.date hav
      exact ⟨⟨hv, by norm_num⟩, lex_of_ord_lt _ _ hav hv ho, rfl⟩
    · rw [if_neg hc] at hb
      injection hb with hb
      subst hb
      obtain ⟨hv, ho⟩ :=
        addDaysI_pos (n - (isoweekday a.date : Int)) (by omega) a.date hav
      exact ⟨⟨hv, by norm_num⟩, lex_of_ord_lt _ _ hav hv ho, rfl⟩
  · -- every_month_D (monthly)
    split at hb
    · exact absurd hb (by simp)
    rename_i day hpe
    split_ifs at hb with hlt
    · -- target day later in the current month
      split at hb
      · exact absurd hb (by simp)
      rename_i d hmk
      injection hb with hb
      subst hb
      obtain ⟨hdeq, hy1, hm1, hm2, hd1, hd2, hdv⟩ := mkDate_ok hmk
      subst hdeq
      refine ⟨⟨hdv, by norm_num⟩, ?_, rfl⟩
      unfold Date.lex
      dsimp only
      omega
    · -- roll to the next month
      dsimp only at hb
      by_cases hm12 : a.date.month + 1 > 12
      · simp only [if_pos hm12] at hb
        split at hb
        · rename_i d hmk
          injection hb with hb
          subst hb
          obtain ⟨hdeq, hy1, hm1, hm2, hd1, hd2, hdv⟩ := mkDate_ok hmk
          subst hdeq
          refine ⟨⟨hdv, by norm_num⟩, ?_, rfl⟩
          unfold Date.lex
          dsimp only
          simp only [Int.toNat_natCast, true_and, and_true]
          omega
        · split at hb
          · exact absurd hb (by simp)
          rename_i d1 hmk1
          injection hb with hb
          subst hb
          obtain ⟨hdeq, hy1, hm1, hm2, _, _, _⟩ := mkDate_ok hmk1
          subst hdeq
          simp only [Int.toNat_natCast, Int.toNat_one] at *
          rw [lastDayFrom_first _ _ (by omega) (by omega)]
          have hdimpos := daysInMonth_pos (isLeap (a.date.year + 1)) 1 (by omega) (by omega)
          refine ⟨⟨⟨?_, ?_, ?_, ?_, ?_⟩, by norm_num⟩, ?_, by trivial⟩
          · dsimp only; omega
          · dsimp only; omega
          · dsimp only; omega
          · dsimp only; omega
          · dsimp only; exact Nat.le_refl _
          · unfold Date.lex
            dsimp only
            omega
      · simp only [if_neg hm12] at hb
        split at hb
        · rename_i d hmk
          injection hb with hb
          subst hb
          obtain ⟨hdeq, hy1, hm1, hm2, hd1, hd2, hdv⟩ := mkDate_ok hmk
          subst hdeq
          refine ⟨⟨hdv, by norm_num⟩, ?_, rfl⟩
          unfold Date.lex
          dsimp only
          simp only [Int.toNat_natCast, true_and, and_true]
          omega
        · split at hb
          · exact absurd hb (by simp)
          rename_i d1 hmk1
          injection hb with hb
          subst hb
          obtain ⟨hdeq, hy1, hm1, hm2, _, _, _⟩ := mkDate_ok hmk1
          subst hdeq
          simp only [Int.toNat_natCast, Int.toNat_one] at *
          rw [lastDayFrom_first _ _ (by omega) (by omega)]
          have hdimpos := daysInMonth_pos (isLeap a.date.year) (a.date.month + 1)
            (by omega) (by omega)
          refine ⟨⟨⟨?_, ?_, ?_, ?_, ?_⟩, by norm_num⟩, ?_, by trivial⟩
          · dsimp only; omega
          · dsimp only; omega
          · dsimp only; omega
          · dsimp only; omega
          · dsimp only; exact Nat.le_refl _
          · unfold Date.lex
            dsimp only
            omega
  · -- every_monthM_L
    split at hb
    · exact absurd hb (by simp)
    rename_i month hLnum
    dsimp only at hb
    by_cases hcond : a.date.month < month ∨ (a.date.month = month ∧ a.date.day < 28)
    · simp only [if_pos hcond] at hb
      split at hb
      · exact absurd hb (by simp)
      rename_i d1 hmk1
      injection hb with hb
      subst hb
      obtain ⟨hdeq, hy1, hm1, hm2, _, _, _⟩ := mkDate_ok hmk1
      subst hdeq
      simp only [Int.toNat_natCast, Int.toNat_one] at *
      rw [lastDayFrom_first _ _ (by omega) (by omega)]
      have hdim28 := daysInMonth_ge_28 (isLeap a.date.year) month (by omega) (by omega)
      refine ⟨⟨⟨?_, ?_, ?_, ?_, ?_⟩, by norm_num⟩, ?_, by trivial⟩
      · dsimp only; omega
      · dsimp only; omega
      · dsimp only; omega
      · dsimp only; omega
      · dsimp only; exact Nat.le_refl _
      · unfold Date.lex
        dsimp only
        omega
    · simp only [if_neg hcond] at hb
      split at hb
      · exact absurd hb (by simp)
      rename_i d1 hmk1
      injection hb with hb
      subst hb
      obtain ⟨hdeq, hy1, hm1, hm2, _, _, _⟩ := mkDate_ok hmk1
      subst hdeq
      simp only [Int.toNat_natCast, Int.toNat_one] at *
      rw [lastDayFrom_first _ _ (by omega) (by omega)]
      have hdimpos := daysInMonth_pos (isLeap (a.date.year + 1)) month (by omega) (by omega)
      refine ⟨⟨⟨?_, ?_, ?_, ?_, ?_⟩, by norm_num⟩, ?_, by trivial⟩
      · dsimp only; omega
      · dsimp only; omega
      · dsimp only; omega
      · dsimp only; omega
      · dsimp only; exact Nat.le_refl _
      · unfold Date.lex
        dsimp only
        omega
  · -- every_monthM_D (yearly)
    split at hb
    rotate_left
    · exact absurd hb (by simp)
    rename_i month day hsome
    have hD7 : ¬(a.date.month = month ∧
        a.date.day = daysInMonth (isLeap a.date.year) month ∧
        daysInMonth (isLeap a.date.year) month < day) := by
      rcases hg with h | h | h | h | h | h | h
      · exact absurd h c1
      · exact absurd h.1 c2
      · exact absurd h c3
      · exact absurd h.1 c4
      · exact absurd h c5
      · obtain ⟨m, hm⟩ := h
        rw [monthMD_none_of_monthL hm] at hsome
        exact absurd hsome (by simp)
      · obtain ⟨md', hm, hx⟩ := h
        rw [hm] at hsome
        injection hsome with hsome
        subst hsome
        simpa using hx
    dsimp only at hb
    by_cases hcond : a.date.month < month ∨ (a.date.month = month ∧ a.date.day < day)
    · simp only [if_pos hcond] at hb
      split at hb
      · rename_i d hmk
        injection hb with hb
        subst hb
        obtain ⟨hdeq, hy1, hm1, hm2, hd1, hd2, hdv⟩ := mkDate_ok hmk
        subst hdeq
        refine ⟨⟨hdv, by norm_num⟩, ?_, rfl⟩
        unfold Date.lex
        dsimp only
        simp only [Int.toNat_natCast, true_and, and_true]
        omega
      · rename_i hmkerr
        split at hb
        · exact absurd hb (by simp)
        rename_i d1 hmk1
        injection hb with hb
        subst hb
        obtain ⟨hdeq, hy1, hm1, hm2, _, _, _⟩ := mkDate_ok hmk1
        subst hdeq
        have hfail : ¬(1 ≤ ((a.date.year : Nat) : Int) ∧ 1 ≤ ((month : Nat) : Int) ∧
            ((month : Nat) : Int) ≤ 12 ∧ 1 ≤ ((day : Nat) : Int) ∧
            ((day : Nat) : Int) ≤
              (daysInMonth (isLeap (((a.date.year : Nat) : Int)).toNat)
                  (((month : Nat) : Int)).toNat : Int)) := by
          intro hcontra
          rw [mkDate, if_pos hcontra] at hmkerr
          exact absurd hmkerr (by simp)
        simp only [Int.toNat_natCast, Int.toNat_one] at *
        rw [lastDayFrom_first _ _ (by omega) (by omega)]
        have hdim28 := daysInMonth_ge_28 (isLeap a.date.year) month (by omega) (by omega)
        refine ⟨⟨⟨?_, ?_, ?_, ?_, ?_⟩, by norm_num⟩, ?_, by trivial⟩
        · dsimp only; omega
        · dsimp only; omega
        · dsimp only; omega
        · dsimp only; omega
        · dsimp only; exact Nat.le_refl _
        · unfold Date.lex
          dsimp only
          rcases hcond with hlt2 | ⟨hmeq, hdlt⟩
          · omega
          · have had2' := had2
            rw [hmeq] at had2'
            have hne : a.date.day ≠ daysInMonth (isLeap a.date.year) month := by
              intro hcc
              exact hD7 ⟨hmeq, hcc, by omega⟩
            omega
    · simp only [if_neg hcond] at hb
      split at hb
      · rename_i d hmk
        injection hb with hb
        subst hb
        obtain ⟨hdeq, hy1, hm1, hm2, hd1, hd2, hdv⟩ := mkDate_ok hmk
        subst hdeq
        refine ⟨⟨hdv, by norm_num⟩, ?_, rfl⟩
        unfold Date.lex
        dsimp only
        simp only [Int.toNat_natCast, true_and, and_true]
        omega
      · split at hb
        · exact absurd hb (by simp)
        rename_i d1 hmk1
        injection hb with hb
        subst hb
        obtain ⟨hdeq, hy1, hm1, hm2, _, _, _⟩ := mkDate_ok hmk1
        subst hdeq
        simp only [Int.toNat_natCast, Int.toNat_one] at *
        rw [lastDayFrom_first _ _ (by omega) (by omega)]
        have hdimpos := daysInMonth_pos (isLeap (a.date.year + 1)) month (by omega) (by omega)
        refine ⟨⟨⟨?_, ?_, ?_, ?_, ?_⟩, by norm_num⟩, ?_, by trivial⟩
        · dsimp only; omega
        · dsimp only; omega
        · dsimp only; omega
        · dsimp only; omega
        · dsimp only; exact Nat.le_refl _
        · unfold Date.lex
          dsimp only
          omega

theorem pyReplaceTime_ok {t : DateTime} {h m s : Int} {r : DateTime}
    (hr : pyReplaceTime t h m s = .ok r) :
    r.date = t.date ∧ r.secs = h.toNat * 3600 + m.toNat * 60 + s.toNat ∧ r.secs < 86400 := by
  unfold pyReplaceTime at hr
  split_ifs at hr with hc
  injection hr with hr
  subst hr
  obtain ⟨h1, h2, h3, h4, h5, h6⟩ := hc
  refine ⟨rfl, rfl, ?_⟩
  dsimp only
  omega

theorem generate_head {s e : DateTime} {st : Nat} {x : DateTime}
    (h : (generate_exec_times s e st).head? = some x) : x = s := by
  unfold generate_exec_times at h
  cases hf : totalSecs e + 1 - totalSecs s with
  | zero => rw [hf] at h; simp [genAux] at h
  | succ n =>
      rw [hf] at h
      unfold genAux at h
      split_ifs at h
      · simp only [List.head?_cons, Option.some.injEq] at h
        exact h.symm
      · simp at h

/-- **C1, corrected form.**  For every valid anchor and every period in the
`GoodPeriod` class (the recurring patterns, with `N ≥ 1`, `D ≥ 1` and the
yearly month-day clamp exclusion), any datetime the calculator returns is
strictly after the anchor, whatever the `start_time`/`end_time` window and
`step` strings are. -/
theorem calcNext_after_anchor (a : DateTime) (period st et stp : List Char)
    (r : DateTime) (ha : a.Valid) (hg : GoodPeriod a period)
    (h : calcNextSyncDatetime a period st et stp = .ok r) :
    DateTime.lt a r := by
  unfold calcNextSyncDatetime at h
  split at h
  · exact absurd h (by simp)
  rename_i sh sm ss hst
  split at h
  · exact absurd h (by simp)
  rename_i eh em es het
  split at h
  · exact absurd h (by simp)
  rename_i stepSeconds hstp
  unfold calcAfterParse at h
  have hreg : dateRegex period = false := by
    rcases hg with hD | hD | hD | hD | hD | hD | hD
    · rw [hD]; decide
    · obtain ⟨t, rfl⟩ := isPrefix_exists hD.1; rfl
    · rw [hD]; decide
    · obtain ⟨t, rfl⟩ := isPrefix_exists hD.1; rfl
    · obtain ⟨t, rfl⟩ := isPrefix_exists hD; rfl
    · obtain ⟨m, hm⟩ := hD
      obtain ⟨t, rfl⟩ := isPrefix_exists (monthLNum_startsWith hm); rfl
    · obtain ⟨md, hm, _⟩ := hD
      obtain ⟨t, rfl⟩ := isPrefix_exists (monthMDNums_startsWith hm); rfl
  rw [if_neg (by simp [hreg])] at h
  split at h
  · exact absurd h (by simp)
  · exact absurd h (by simp)
  rename_i todayStart todayEnd hts hte
  split_ifs at h with hstep0 hltStart
  · -- step "0", start time still ahead today
    injection h with h
    subst h
    exact hltStart
  · -- step "0", roll to the next base date
    split at h
    · exact absurd h (by simp)
    rename_i nextBase hbase
    split at h
    · exact absurd h (by simp)
    · exact absurd h (by simp)
    rename_i nextStart hnsEnd hns hne2
    injection h with h
    subst h
    obtain ⟨hbv, hblex, hbsec⟩ := base_date_advances a period nextBase ha hg hbase
    obtain ⟨hdate, _, _⟩ := pyReplaceTime_ok hns
    exact Or.inl (by rw [hdate]; exact hblex)
  · -- positive step
    split at h
    · rename_i t hfind
      injection h with h
      subst h
      have hp := List.find?_some hfind
      simpa using hp
    · split at h
      · exact absurd h (by simp)
      rename_i nextBase hbase
      split at h
      · exact absurd h (by simp)
      · exact absurd h (by simp)
      rename_i nextStart nextEnd hns hne2
      split at h
      · rename_i x hx
        injection h with h
        subst h
        obtain ⟨hbv, hblex, hbsec⟩ := base_date_advances a period nextBase ha hg hbase
        have hxs : x = nextStart := generate_head hx
        subst hxs
        obtain ⟨hdate, _, _⟩ := pyReplaceTime_ok hns
        exact Or.inl (by rw [hdate]; exact hblex)
      · exact absurd h (by simp)

/-- **C1, counterexample to the claim as stated.**  The fixed-date pattern
`YYYY-MM-DD` is listed among the supported patterns, yet for a date in the
past the calculator returns that date's start-of-window time, which is at
or before the anchor: anchored at 2024-06-10 15:00:00, period
`"2020-01-01"` yields 2020-01-01 00:00:00. -/
theorem calcNext_fixed_past_date_counterexample :
    calcNextSyncDatetime ⟨⟨2024, 6, 10⟩, 54000⟩ "2020-01-01".data
        "00:00:00".data "23:59:59".data "0".data = .ok ⟨⟨2020, 1, 1⟩, 0⟩ ∧
      ¬ DateTime.lt ⟨⟨2024, 6, 10⟩, 54000⟩ ⟨⟨2020, 1, 1⟩, 0⟩ := by
  constructor
  · rfl
  · decide

/-- Witness for `calcNext_after_anchor`: `every_day` anchored at
2024-06-10 15:00:00 yields 2024-06-11 00:00:00, strictly later. -/
theorem calcNext_after_anchor_witness :
    DateTime.lt ⟨⟨2024, 6, 10⟩, 54000⟩ ⟨⟨2024, 6, 11⟩, 0⟩ :=
  calcNext_after_anchor ⟨⟨2024, 6, 10⟩, 54000⟩ "every_day".data
    "00:00:00".data "23:59:59".data "0".data ⟨⟨2024, 6, 11⟩, 0⟩
    (by decide) (Or.inl rfl) rfl

/-- Whether the branch of `calcNextSyncDatetime` that evaluates
`get_next_base_date` (and so the period string) is reached: parsing &
window validation succeed and today's window offers no instant after the
anchor.  When parsing or validation fails the whole call already raises,
so those cases are set to `true`. -/
def periodConsulted (a : DateTime) (st et stp : List Char) : Bool :=
  match parseHMS st, parseHMS et, parse_step stp with
  | .ok (sh, sm, ss), .ok (eh, em, es), .ok stepSeconds =>
    (match pyReplaceTime (setMidnight a) sh sm ss,
        pyReplaceTime (setMidnight a) eh em es with
     | .ok ts, .ok te =>
         if stepSeconds = 0 then decide (¬ DateTime.lt a ts)
         else ((generate_exec_times ts te stepSeconds).find?
             (fun t => decide (DateTime.lt a t))).isNone
     | _, _ => true)
  | _, _, _ => true

/-- **C2, corrected form.**  The calculator never returns a null sentinel:
a malformed step string makes it raise `ValueError` to its caller, and a
malformed period string (one failing the direct-date regex whose base-date
dispatch raises) makes it raise whenever the period is actually consulted. -/
theorem calcNext_malformed_raises (a : DateTime) (period st et stp : List Char)
    (h : (parse_step stp).isOk = false ∨
      (dateRegex period = false ∧ (get_next_base_date a period).isOk = false ∧
        periodConsulted a st et stp = true)) :
    (calcNextSyncDatetime a period st et stp).isOk = false := by
  cases hcv : calcNextSyncDatetime a period st et stp with
  | error e => rfl
  | ok v =>
    exfalso
    unfold calcNextSyncDatetime at hcv
    split at hcv
    · simp at hcv
    rename_i sh sm ss hst
    split at hcv
    · simp at hcv
    rename_i eh em es het
    split at hcv
    · simp at hcv
    rename_i stepSeconds hstp
    rcases h with h | ⟨hreg, hbase, hcons⟩
    · rw [hstp] at h
      simp [Except.isOk, Except.toBool] at h
    · unfold calcAfterParse at hcv
      rw [if_neg (by simp [hreg])] at hcv
      split at hcv
      · simp at hcv
      · simp at hcv
      rename_i ts te hts hte
      unfold periodConsulted at hcons
      rw [hst, het, hstp] at hcons
      have hconsA : (match pyReplaceTime (setMidnight a) sh sm ss,
          pyReplaceTime (setMidnight a) eh em es with
        | .ok ts2, .ok te2 =>
            if stepSeconds = 0 then decide (¬ DateTime.lt a ts2)
            else ((generate_exec_times ts2 te2 stepSeconds).find?
              (fun t => decide (DateTime.lt a t))).isNone
        | _, _ => true) = true := hcons
      rw [hts, hte] at hconsA
      have hcons2 : (if stepSeconds = 0 then decide (¬ DateTime.lt a ts)
          else ((generate_exec_times ts te stepSeconds).find?
            (fun t => decide (DateTime.lt a t))).isNone) = true := hconsA
      by_cases hstep0 : stepSeconds = 0
      · rw [if_pos hstep0] at hcons2 hcv
        simp only [decide_eq_true_eq] at hcons2
        rw [if_neg hcons2] at hcv
        cases hgb : get_next_base_date a period with
        | error e =>
            rw [hgb] at hcv
            simp at hcv
        | ok nb =>
            rw [hgb] at hbase
            simp [Except.isOk, Except.toBool] at hbase
      · rw [if_neg hstep0] at hcons2 hcv
        rw [Option.isNone_iff_eq_none] at hcons2
        rw [hcons2] at hcv
        cases hgb : get_next_base_date a period with
        | error e =>
            rw [hgb] at hcv
            simp at hcv
        | ok nb =>
            rw [hgb] at hbase
            simp [Except.isOk, Except.toBool] at hbase

/-- **C2, counterexample to the claim as stated.**  A malformed period
raises `ValueError` (when the period is consulted), and a malformed step
string raises as well; no null sentinel is ever produced. -/
theorem calcNext_malformed_counterexample :
    calcNextSyncDatetime ⟨⟨2024, 6, 10⟩, 54000⟩ "bad_period".data
        "00:00:00".data "23:59:59".data "0".data =
      .error "ValueError: Invalid period format" ∧
    calcNextSyncDatetime ⟨⟨2024, 6, 10⟩, 54000⟩ "every_day".data
        "00:00:00".data "23:59:59".data "xh".data =
      .error "ValueError: Invalid step format" := by
  constructor
  · rfl
  · rfl

/-- Witness for `calcNext_malformed_raises` at a concrete malformed step. -/
theorem calcNext_malformed_raises_witness :
    (calcNextSyncDatetime ⟨⟨2024, 6, 10⟩, 54000⟩ "every_day".data
        "00:00:00".data "23:59:59".data "xh".data).isOk = false :=
  calcNext_malformed_raises ⟨⟨2024, 6, 10⟩, 54000⟩ "every_day".data
    "00:00:00".data "23:59:59".data "xh".data (Or.inl (by decide))

theorem dtLt_trans {a b c : DateTime} (h1 : DateTime.lt a b) (h2 : DateTime.lt b c) :
    DateTime.lt a c := by
  obtain ⟨⟨ya, ma, da⟩, sa⟩ := a
  obtain ⟨⟨yb, mb, db⟩, sb⟩ := b
  obtain ⟨⟨yc, mc, dc⟩, sc⟩ := c
  simp only [DateTime.lt, Date.lex, DateTime.mk.injEq, Date.mk.injEq] at h1 h2 ⊢
  omega

theorem genAux_valid (f : Nat) (cur e : DateTime) (st : Nat) (x : DateTime)
    (hc : cur.Valid) (hx : x ∈ genAux f cur e st) : x.Valid := by
  induction f generalizing cur with
  | zero => simp [genAux] at hx
  | succ n ih =>
      unfold genAux at hx
      split_ifs at hx with hle
      · rcases List.mem_cons.mp hx with rfl | hx'
        · exact hc
        · exact ih _ (valid_addSecs st cur hc) hx'
      · simp at hx

/-- Success of the calculator preserves datetime validity, for the
`GoodPeriod` class. -/
theorem calcNext_valid_good (a : DateTime) (period st et stp : List Char)
    (r : DateTime) (ha : a.Valid) (hg : GoodPeriod a period)
    (h : calcNextSyncDatetime a period st et stp = .ok r) :
    r.Valid := by
  unfold calcNextSyncDatetime at h
  split at h
  · exact absurd h (by simp)
  rename_i sh sm ss hst
  split at h
  · exact absurd h (by simp)
  rename_i eh em es het
  split at h
  · exact absurd h (by simp)
  rename_i stepSeconds hstp
  unfold calcAfterParse at h
  have hreg : dateRegex period = false := by
    rcases hg with hD | hD | hD | hD | hD | hD | hD
    · rw [hD]; decide
    · obtain ⟨t, rfl⟩ := isPrefix_exists hD.1; rfl
    · rw [hD]; decide
    · obtain ⟨t, rfl⟩ := isPrefix_exists hD.1; rfl
    · obtain ⟨t, rfl⟩ := isPrefix_exists hD; rfl
    · obtain ⟨m, hm⟩ := hD
      obtain ⟨t, rfl⟩ := isPrefix_exists (monthLNum_startsWith hm); rfl
    · obtain ⟨md, hm, _⟩ := hD
      obtain ⟨t, rfl⟩ := isPrefix_exists (monthMDNums_startsWith hm); rfl
  rw [if_neg (by simp [hreg])] at h
  split at h
  · exact absurd h (by simp)
  · exact absurd h (by simp)
  rename_i todayStart todayEnd hts hte
  have htsv : todayStart.Valid := by
    obtain ⟨hd, hs, hb⟩ := pyReplaceTime_ok hts
    exact ⟨by rw [hd]; exact ha.1, hb⟩
  split_ifs at h with hstep0 hltStart
  · injection h with h
    subst h
    exact htsv
  · split at h
    · exact absurd h (by simp)
    rename_i nextBase hbase
    split at h
    · exact absurd h (by simp)
    · exact absurd h (by simp)
    rename_i nextStart hnsEnd hns hne2
    injection h with h
    subst h
    obtain ⟨hbv, hblex, hbsec⟩ := base_date_advances a period nextBase ha hg hbase
    obtain ⟨hd, hs, hb⟩ := pyReplaceTime_ok hns
    exact ⟨by rw [hd]; exact hbv.1, hb⟩
  · split at h
    · rename_i t hfind
      injection h with h
      subst h
      exact genAux_valid _ _ _ _ _ htsv (List.mem_of_find?_eq_some hfind)
    · split at h
      · exact absurd h (by simp)
      rename_i nextBase hbase
      split at h
      · exact absurd h (by simp)
      · exact absurd h (by simp)
      rename_i nextStart nextEnd hns hne2
      split at h
      · rename_i x hx
        injection h with h
        subst h
        obtain ⟨hbv, hblex, hbsec⟩ := base_date_advances a period nextBase ha hg hbase
        have hxs : x = nextStart := generate_head hx
        subst hxs
        obtain ⟨hd, hs, hb⟩ := pyReplaceTime_ok hns
        exact ⟨by rw [hd]; exact hbv.1, hb⟩
      · exact absurd h (by simp)

/-- The anchor-independent advancing class: all `GoodPeriod` shapes whose
side condition holds at every valid anchor (`every_monthM_D` restricted to
`D ≤ 28`, a day valid in every month). -/
def AdvancingAll (period : List Char) : Prop :=
  period = "every_day".data ∨
  ("every_day_".data.isPrefixOf period ∧
    ∃ n : Int, pyInt (lastPiece period) = .ok n ∧ 1 ≤ n) ∨
  period = "every_wDay".data ∨
  ("every_week_".data.isPrefixOf period ∧
    ∃ n : Int, pyInt (lastPiece period) = .ok n ∧ 1 ≤ n) ∨
  "every_month_".data.isPrefixOf period ∨
  (∃ m : Nat, monthLNum period = some m) ∨
  (∃ md : Nat × Nat, monthMDNums period = some md ∧ md.2 ≤ 28)

theorem advancingAll_good {period : List Char} (h : AdvancingAll period)
    (a : DateTime) (ha : a.Valid) : GoodPeriod a period := by
  obtain ⟨⟨hay, ham1, ham2, had1, had2⟩, hsec⟩ := ha
  refine Or.imp id (Or.imp id (Or.imp id (Or.imp id (Or.imp id (Or.imp id ?_))))) h
  intro h7
  obtain ⟨md, hm, hd28⟩ := h7
  refine ⟨md, hm, ?_⟩
  rintro ⟨h1, h2, h3⟩
  have := daysInMonth_ge_28 (isLeap a.date.year) md.1 (by omega) (by omega)
  omega

/-! ## `calcUnExecutedTimes` (missed occurrences)

Modelled from the spec: the scheduler imports `calcUnExecutedTimes` from
`tools/sys/calcNextSyncDatetime.py`, but that file does not define it —
only the import and the call in `ScriptScheduler.carry_up` exist in the
sources.  Spec §4.1: "`missed_occurrences` repeatedly applies
`next_occurrence` starting from `last_sync`, collecting results while
`result <= now`, stopping either when `result > now` or a safety bound is
hit (must guard against infinite loops on non-advancing periods — if two
successive occurrences are equal, fail the whole call rather than loop
forever)".  The guard below fails the call when an occurrence repeats its
cursor, and the safety bound is an explicit fuel parameter. -/
def calcUnExecutedTimesAux (now : DateTime) (period st et stp : List Char) :
    Nat → DateTime → List DateTime → Except String (List DateTime)
  | 0, _, _ => .error "safety bound exceeded"
  | fuel + 1, cursor, acc =>
      match calcNextSyncDatetime cursor period st et stp with
      | .error e => .error e
      | .ok next =>
          if DateTime.le next now then
            if next = cursor then .error "period does not advance"
            else calcUnExecutedTimesAux now period st et stp fuel next (acc ++ [next])
          else .ok acc

/-- Modelled from the spec: `calcUnExecutedTimes(last_sync, period,
start_time, end_time, step)`, with `now` and the safety bound explicit. -/
def calcUnExecutedTimes (lastSync now : DateTime) (period st et stp : List Char)
    (fuel : Nat) : Except String (List DateTime) :=
  calcUnExecutedTimesAux now period st et stp fuel lastSync []

theorem calcUnExecutedAux_invariant (now : DateTime) (period st et stp : List Char)
    (hadv : AdvancingAll period) :
    ∀ (fuel : Nat) (cursor : DateTime) (acc l : List DateTime),
      cursor.Valid →
      calcUnExecutedTimesAux now period st et stp fuel cursor acc = .ok l →
      ∃ suffix, l = acc ++ suffix ∧
        List.Pairwise DateTime.lt (cursor :: suffix) ∧
        (∀ x ∈ suffix, DateTime.le x now ∧ x.Valid) ∧
        ∃ nx, calcNextSyncDatetime ((cursor :: suffix).getLast (by simp))
            period st et stp = .ok nx ∧ ¬ DateTime.le nx now := by
  intro fuel
  induction fuel with
  | zero =>
      intro cursor acc l hv h
      exact absurd h (by simp [calcUnExecutedTimesAux])
  | succ f ih =>
      intro cursor acc l hv h
      unfold calcUnExecutedTimesAux at h
      split at h
      · exact absurd h (by simp)
      rename_i next hnx
      split_ifs at h with hle hEq
      · -- next ≤ now and next ≠ cursor: the loop recurses
        have hgood := advancingAll_good hadv cursor hv
        have hlt := calcNext_after_anchor cursor period st et stp next hv hgood hnx
        have hnv := calcNext_valid_good cursor period st et stp next hv hgood hnx
        obtain ⟨suffix', hl, hpw, hmem, nx2, hnx2, hnow2⟩ := ih next (acc ++ [next]) l hnv h
        refine ⟨next :: suffix', by simpa [List.append_assoc] using hl, ?_, ?_, ?_⟩
        · refine List.Pairwise.cons ?_ hpw
          intro x hx
          rcases List.mem_cons.mp hx with rfl | hx'
          · exact hlt
          · exact dtLt_trans hlt (List.rel_of_pairwise_cons hpw hx')
        · intro x hx
          rcases List.mem_cons.mp hx with rfl | hx'
          · exact ⟨hle, hnv⟩
          · exact hmem x hx'
        · refine ⟨nx2, ?_, hnow2⟩
          have hgl : (cursor :: next :: suffix').getLast (by simp) =
              (next :: suffix').getLast (by simp) := List.getLast_cons (by simp)
          rw [hgl]
          exact hnx2
      · -- next > now: the loop stops and returns the accumulator
        injection h with h
        subst h
        refine ⟨[], by simp, by simp, by simp, next, ?_, hle⟩
        simpa using hnx

/-- **C3 (amended, spec-modelled).**  For a valid `last_sync` and an
advancing period, whenever the modelled `calcUnExecutedTimes` returns a
list it is strictly ascending, every element lies strictly after
`last_sync` and at or before `now`, and re-running with `last_sync`
advanced to the last returned element yields the empty list. -/
theorem calcUnExecuted_ok_props (lastSync now : DateTime)
    (period st et stp : List Char) (fuel : Nat) (l : List DateTime)
    (hv : lastSync.Valid) (hadv : AdvancingAll period)
    (h : calcUnExecutedTimes lastSync now period st et stp fuel = .ok l) :
    List.Pairwise DateTime.lt l ∧
    (∀ x ∈ l, DateTime.lt lastSync x ∧ DateTime.le x now) ∧
    (∀ last, l.getLast? = some last →
      ∀ f2 : Nat, calcUnExecutedTimes last now period st et stp (f2 + 1) = .ok []) := by
  obtain ⟨suffix, hl, hpw, hmem, nx, hnx, hnow⟩ :=
    calcUnExecutedAux_invariant now period st et stp hadv fuel lastSync [] l hv h
  simp only [List.nil_append] at hl
  subst hl
  refine ⟨(List.pairwise_cons.mp hpw).2, ?_, ?_⟩
  · intro x hx
    exact ⟨List.rel_of_pairwise_cons hpw hx, (hmem x hx).1⟩
  · intro last hlast f2
    have hlne : l ≠ [] := by
      intro hcc
      rw [hcc] at hlast
      simp at hlast
    rw [List.getLast?_eq_getLast l hlne, Option.some.injEq] at hlast
    have hL : (lastSync :: l).getLast (by simp) = last := by
      rw [List.getLast_cons hlne]
      exact hlast
    rw [hL] at hnx
    unfold calcUnExecutedTimes calcUnExecutedTimesAux
    rw [hnx]
    simp [hnow]

set_option maxRecDepth 8192 in
/-- **C3, counterexample to the claim as stated** (spec-modelled).  The
pattern `every_month2_31` is well-formed by the grammar, yet the clamping
of day 31 to February's length makes the occurrence sequence repeat
(2023-02-28 00:00 follows itself), so the whole call fails with the
spec-mandated loop guard instead of returning the list of ascending
missed occurrences. -/
theorem calcUnExecuted_counterexample :
    calcUnExecutedTimes ⟨⟨2023, 2, 1⟩, 43200⟩ ⟨⟨2023, 3, 1⟩, 0⟩
      "every_month2_31".data "00:00:00".data "23:59:59".data "0".data 100 =
      .error "period does not advance" := by
  rfl

/-- Witness for `calcUnExecuted_ok_props`: an `every_day` backlog of two
days is returned ascending, within bounds, and the re-run is empty. -/
theorem calcUnExecuted_ok_props_witness :
    List.Pairwise DateTime.lt
      [(⟨⟨2024, 6, 11⟩, 0⟩ : DateTime), ⟨⟨2024, 6, 12⟩, 0⟩] ∧
    (∀ x ∈ [(⟨⟨2024, 6, 11⟩, 0⟩ : DateTime), ⟨⟨2024, 6, 12⟩, 0⟩],
      DateTime.lt ⟨⟨2024, 6, 10⟩, 54000⟩ x ∧ DateTime.le x ⟨⟨2024, 6, 12⟩, 43200⟩) ∧
    (∀ last, ([(⟨⟨2024, 6, 11⟩, 0⟩ : DateTime), ⟨⟨2024, 6, 12⟩, 0⟩]).getLast? =
        some last →
      ∀ f2 : Nat, calcUnExecutedTimes last ⟨⟨2024, 6, 12⟩, 43200⟩ "every_day".data
        "00:00:00".data "23:59:59".data "0".data (f2 + 1) = .ok []) :=
  calcUnExecuted_ok_props ⟨⟨2024, 6, 10⟩, 54000⟩ ⟨⟨2024, 6, 12⟩, 43200⟩
    "every_day".data "00:00:00".data "23:59:59".data "0".data 10
    [⟨⟨2024, 6, 11⟩, 0⟩, ⟨⟨2024, 6, 12⟩, 0⟩] (by decide) (Or.inl rfl) rfl

/-! ## JSON values and the checkpoint files

`_save_breakpoint_info` serialises the breakpoint dict with
`json.dump(..., ensure_ascii=False, indent=2)` and
`_load_latest_breakpoint_info` reads it back with `json.load`.  The
breakpoint dicts hold nulls, booleans, integers, strings, lists and
nested dicts, so JSON values are modelled with integer numerics (floats
do not occur in the checkpoints). -/

mutual
inductive Json where
  | null : Json
  | bool (b : Bool) : Json
  | num (n : Int) : Json
  | str (s : List Char) : Json
  | arr (elems : JsonArr) : Json
  | obj (fields : JsonObj) : Json
inductive JsonArr where
  | nil : JsonArr
  | cons (hd : Json) (tl : JsonArr) : JsonArr
inductive JsonObj where
  | nil : JsonObj
  | cons (key : List Char) (val : Json) (tl : JsonObj) : JsonObj
end

/-- Decimal digit character. -/
def digitChar (n : Nat) : Char :=
  match n with
  | 0 => '0' | 1 => '1' | 2 => '2' | 3 => '3' | 4 => '4'
  | 5 => '5' | 6 => '6' | 7 => '7' | 8 => '8' | _ => '9'

/-- Lower-case hexadecimal digit character, as `"\\u%04x" % code` emits. -/
def hexChar (n : Nat) : Char :=
  match n with
  | 0 => '0' | 1 => '1' | 2 => '2' | 3 => '3' | 4 => '4'
  | 5 => '5' | 6 => '6' | 7 => '7' | 8 => '8' | 9 => '9'
  | 10 => 'a' | 11 => 'b' | 12 => 'c' | 13 => 'd' | 14 => 'e' | _ => 'f'

/-- Decimal digits of a natural number, as `str` renders it. -/
def natToChars (n : Nat) : List Char :=
  if _h : n < 10 then [digitChar n]
  else natToChars (n / 10) ++ [digitChar (n % 10)]
decreasing_by exact Nat.div_lt_self (by omega) (by omega)

/-- `str(n)` for a Python integer. -/
def intToChars (n : Int) : List Char :=
  if n < 0 then '-' :: natToChars (-n).toNat else natToChars n.toNat

/-- The escape of one character inside a JSON string, per CPython's
`json.encoder` with `ensure_ascii=False`: short escapes for the two
specials and the common control characters, `\u00xx` for the remaining
control characters, everything else written raw. -/
def escapeChar (c : Char) : List Char :=
  if c = '"' then ['\\', '"']
  else if c = '\\' then ['\\', '\\']
  else if c = '\n' then ['\\', 'n']
  else if c = '\t' then ['\\', 't']
  else if c = '\r' then ['\\', 'r']
  else if c = '\x08' then ['\\', 'b']
  else if c = '\x0c' then ['\\', 'f']
  else if c.toNat < 32 then
    ['\\', 'u', '0', '0', hexChar (c.toNat / 16), hexChar (c.toNat % 16)]
  else [c]

def escapeString (s : List Char) : List Char :=
  s.foldr (fun c acc => escapeChar c ++ acc) []

def spaces (n : Nat) : List Char := List.replicate n ' '

mutual
/-- `json.dumps(value, ensure_ascii=False, indent=2)` at indentation
`lvl` (number of spaces the value's container prefixes its items with). -/
def dumpJson : Json → Nat → List Char
  | .null, _ => "null".data
  | .bool true, _ => "true".data
  | .bool false, _ => "false".data
  | .num n, _ => intToChars n
  | .str s, _ => '"' :: (escapeString s ++ ['"'])
  | .arr .nil, _ => "[]".data
  | .arr (.cons h t), lvl =>
      '[' :: '\n' :: (spaces (lvl + 2) ++ dumpArr (JsonArr.cons h t) (lvl + 2) ++
        '\n' :: (spaces lvl ++ [']']))
  | .obj .nil, _ => "{}".data
  | .obj (.cons k v t), lvl =>
      '{' :: '\n' :: (spaces (lvl + 2) ++ dumpObj (JsonObj.cons k v t) (lvl + 2) ++
        '\n' :: (spaces lvl ++ ['}']))
def dumpArr : JsonArr → Nat → List Char
  | .nil, _ => []
  | .cons h .nil, lvl => dumpJson h lvl
  | .cons h (.cons h2 t), lvl =>
      dumpJson h lvl ++ ',' :: '\n' :: (spaces lvl ++ dumpArr (JsonArr.cons h2 t) lvl)
def dumpObj : JsonObj → Nat → List Char
  | .nil, _ => []
  | .cons k v .nil, lvl =>
      '"' :: (escapeString k ++ '"' :: ':' :: ' ' :: dumpJson v lvl)
  | .cons k v (.cons k2 v2 t), lvl =>
      '"' :: (escapeString k ++ '"' :: ':' :: ' ' :: dumpJson v lvl) ++
        ',' :: '\n' :: (spaces lvl ++ dumpObj (JsonObj.cons k2 v2 t) lvl)
end

/-- JSON insignificant whitespace. -/
def wsChar (c : Char) : Bool :=
  c = ' ' || c = '\n' || c = '\t' || c = '\r'

def skipWs : List Char → List Char
  | [] => []
  | c :: r => if wsChar c then skipWs r else c :: r

/-- Longest digit prefix and the remainder. -/
def spanDigits : List Char → List Char × List Char
  | [] => ([], [])
  | c :: r =>
      if c.isDigit then
        let p := spanDigits r
        (c :: p.1, p.2)
      else ([], c :: r)

/-- Hex digit value, both letter cases accepted as `json.load` does. -/
def hexVal (c : Char) : Option Nat :=
  if c.isDigit then some (c.toNat - '0'.toNat)
  else if 'a' ≤ c ∧ c ≤ 'f' then some (c.toNat - 'a'.toNat + 10)
  else if 'A' ≤ c ∧ c ≤ 'F' then some (c.toNat - 'A'.toNat + 10)
  else none

/-- JSON string body after the opening quote: content up to the closing
quote, decoding escapes. -/
def parseStringBody : List Char → Option (List Char × List Char)
  | [] => none
  | c :: r =>
      if c = '"' then some ([], r)
      else if c = '\\' then
        match r with
        | [] => none
        | e :: r2 =>
            if e = '"' then
              (parseStringBody r2).map (fun p => ('"' :: p.1, p.2))
            else if e = '\\' then
              (parseStringBody r2).map (fun p => ('\\' :: p.1, p.2))
            else if e = 'n' then
              (parseStringBody r2).map (fun p => ('\n' :: p.1, p.2))
            else if e = 't' then
              (parseStringBody r2).map (fun p => ('\t' :: p.1, p.2))
            else if e = 'r' then
              (parseStringBody r2).map (fun p => ('\r' :: p.1, p.2))
            else if e = 'b' then
              (parseStringBody r2).map (fun p => ('\x08' :: p.1, p.2))
            else if e = 'f' then
              (parseStringBody r2).map (fun p => ('\x0c' :: p.1, p.2))
            else if e = 'u' then
              match r2 with
              | h1 :: h2 :: h3 :: h4 :: r3 =>
                  match hexVal h1, hexVal h2, hexVal h3, hexVal h4 with
                  | some a, some b, some cc, some d =>
                      (parseStringBody r3).map
                        (fun p => (Char.ofNat (((a * 16 + b) * 16 + cc) * 16 + d) :: p.1, p.2))
                  | _, _, _, _ => none
              | _ => none
            else none
      else (parseStringBody r).map (fun p => (c :: p.1, p.2))
termination_by l => l.length
decreasing_by all_goals simp_wf <;> omega

mutual
/-- Fuel-indexed JSON value parser mirroring `json.load`'s grammar for the
values the checkpoints contain (integral numbers).  One unit of fuel is
spent per value and per element step, so fuel bounded below by the value's
size suffices. -/
def parseVal : Nat → List Char → Option (Json × List Char)
  | 0, _ => none
  | f+1, input =>
    match skipWs input with
    | [] => none
    | c :: r =>
      if c = 'n' then
        match r with
        | 'u' :: 'l' :: 'l' :: r2 => some (.null, r2)
        | _ => none
      else if c = 't' then
        match r with
        | 'r' :: 'u' :: 'e' :: r2 => some (.bool true, r2)
        | _ => none
      else if c = 'f' then
        match r with
        | 'a' :: 'l' :: 's' :: 'e' :: r2 => some (.bool false, r2)
        | _ => none
      else if c = '"' then
        (parseStringBody r).map (fun p => (.str p.1, p.2))
      else if c = '-' then
        let p := spanDigits r
        if p.1 = [] then none else some (.num (-(digitsVal p.1 : Int)), p.2)
      else if c.isDigit then
        let p := spanDigits (c :: r)
        some (.num (digitsVal p.1), p.2)
      else if c = '[' then
        if (skipWs r).head? = some ']' then some (.arr .nil, (skipWs r).tail)
        else (parseArrElems f r).map (fun p => (Json.arr p.1, p.2))
      else if c = '{' then
        if (skipWs r).head? = some '}' then some (.obj .nil, (skipWs r).tail)
        else (parseObjFields f r).map (fun p => (Json.obj p.1, p.2))
      else none
/-- One-or-more array elements followed by `]`. -/
def parseArrElems : Nat → List Char → Option (JsonArr × List Char)
  | 0, _ => none
  | f+1, input =>
    match parseVal f input with
    | none => none
    | some (v, r) =>
      match skipWs r with
      | [] => none
      | c :: r2 =>
        if c = ',' then
          (parseArrElems f r2).map (fun p => (JsonArr.cons v p.1, p.2))
        else if c = ']' then some (JsonArr.cons v .nil, r2)
        else none
/-- One-or-more `"key": value` fields followed by `}`. -/
def parseObjFields : Nat → List Char → Option (JsonObj × List Char)
  | 0, _ => none
  | f+1, input =>
    match skipWs input with
    | [] => none
    | c :: r =>
      if c = '"' then
        match parseStringBody r with
        | none => none
        | some (k, r2) =>
          match skipWs r2 with
          | [] => none
          | c2 :: r3 =>
            if c2 = ':' then
              match parseVal f r3 with
              | none => none
              | some (v, r4) =>
                match skipWs r4 with
                | [] => none
                | c3 :: r5 =>
                  if c3 = ',' then
                    (parseObjFields f r5).map (fun p => (JsonObj.cons k v p.1, p.2))
                  else if c3 = '}' then some (JsonObj.cons k v .nil, r5)
                  else none
            else none
      else none
end

mutual
/-- Fuel adequate for parsing a value. -/
def jsize : Json → Nat
  | .null | .bool _ | .num _ | .str _ => 1
  | .arr l => 1 + asize l
  | .obj o => 1 + osize o
def asize : JsonArr → Nat
  | .nil => 0
  | .cons h t => 1 + jsize h + asize t
def osize : JsonObj → Nat
  | .nil => 0
  | .cons _ v t => 1 + jsize v + osize t
end

/-- `json.load` over a whole document: parse one value, allow trailing
whitespace only. -/
def parseJson (content : List Char) : Option Json :=
  match parseVal (content.length + 1) content with
  | some (j, rest) => if skipWs rest = [] then some j else none
  | none => none

theorem hexVal_hexChar {k : Nat} (h : k < 16) : hexVal (hexChar k) = some k := by
  interval_cases k <;> rfl

theorem parseStringBody_escape (s : List Char) (rest : List Char) :
    parseStringBody (escapeString s ++ '"' :: rest) = some (s, rest) := by
  induction s with
  | nil =>
    show parseStringBody ('"' :: rest) = some ([], rest)
    rw [parseStringBody.eq_def]; simp
  | cons c s ih =>
    show parseStringBody ((escapeChar c ++ escapeString s) ++ '"' :: rest) = some (c :: s, rest)
    unfold escapeChar
    split_ifs with h1 h2 h3 h4 h5 h6 h7 h8
    · subst h1; rw [parseStringBody.eq_def]; simp [ih]
    · subst h2; rw [parseStringBody.eq_def]; simp [ih]
    · subst h3; rw [parseStringBody.eq_def]; simp [ih]
    · subst h4; rw [parseStringBody.eq_def]; simp [ih]
    · subst h5; rw [parseStringBody.eq_def]; simp [ih]
    · subst h6; rw [parseStringBody.eq_def]; simp [ih]
    · subst h7; rw [parseStringBody.eq_def]; simp [ih]
    · -- control character: \u00xy
      have hq : hexVal (hexChar (c.toNat / 16)) = some (c.toNat / 16) :=
        hexVal_hexChar (by omega)
      have hm : hexVal (hexChar (c.toNat % 16)) = some (c.toNat % 16) :=
        hexVal_hexChar (by omega)
      have hv0 : hexVal '0' = some 0 := rfl
      have hcn : ((0 * 16 + 0) * 16 + c.toNat / 16) * 16 + c.toNat % 16 = c.toNat := by omega
      rw [parseStringBody.eq_def]; simp [hq, hm, hv0, ih, hcn]
      rw [show c.toNat / 16 * 16 + c.toNat % 16 = c.toNat from by omega, Char.ofNat_toNat]
    · -- raw character
      rw [parseStringBody.eq_def]; simp [h1, h2, ih]
def allWs (ws : List Char) : Prop := ∀ c ∈ ws, wsChar c = true

theorem skipWs_app {ws x : List Char} (hws : allWs ws) : skipWs (ws ++ x) = skipWs x := by
  induction ws with
  | nil => rfl
  | cons c w ih =>
    have hc : wsChar c = true := hws c (by simp)
    show skipWs (c :: (w ++ x)) = skipWs x
    rw [skipWs, if_pos hc]
    exact ih (fun d hd => hws d (by simp [hd]))

theorem skipWs_nonws {c : Char} {t : List Char} (h : wsChar c = false) :
    skipWs (c :: t) = c :: t := by
  simp [skipWs, h]

theorem parseVal_ws {ws x : List Char} (f : Nat) (hws : allWs ws) :
    parseVal f (ws ++ x) = parseVal f x := by
  cases f with
  | zero => rfl
  | succ f => simp only [parseVal]; rw [skipWs_app hws]

theorem parseArrElems_ws {ws x : List Char} (f : Nat) (hws : allWs ws) :
    parseArrElems f (ws ++ x) = parseArrElems f x := by
  cases f with
  | zero => rfl
  | succ f => simp only [parseArrElems]; rw [parseVal_ws f hws]

theorem parseObjFields_ws {ws x : List Char} (f : Nat) (hws : allWs ws) :
    parseObjFields f (ws ++ x) = parseObjFields f x := by
  cases f with
  | zero => rfl
  | succ f => simp only [parseObjFields]; rw [skipWs_app hws]

theorem allWs_nl_spaces (n : Nat) : allWs ('\n' :: spaces n) := by
  intro c hc
  rcases List.mem_cons.mp hc with rfl | hc
  · rfl
  · rw [List.eq_of_mem_replicate hc]; rfl

theorem allWs_single_space : allWs [' '] := by
  intro c hc; simp at hc; subst hc; rfl

theorem wsChar_not_digit {c : Char} (h : wsChar c = true) : c.isDigit = false := by
  simp [wsChar] at h
  rcases h with ((rfl | rfl) | rfl) | rfl <;> rfl

def restOk (rest : List Char) : Prop := ∀ c t, rest = c :: t → c.isDigit = false

theorem restOk_ws_append {ws : List Char} (hws : allWs ws) {c : Char}
    (hc : c.isDigit = false) (rest : List Char) : restOk (ws ++ c :: rest) := by
  cases ws with
  | nil =>
    intro c' t' he
    injection he with h1 _
    subst h1; exact hc
  | cons w ws' =>
    intro c' t' he
    have h1 : c' = w := by injection he with h1 _; exact h1.symm
    rw [h1]
    exact wsChar_not_digit (hws w (by simp))

theorem restOk_cons {c : Char} (hc : c.isDigit = false) (x : List Char) :
    restOk (c :: x) := by
  intro c' t' he
  injection he with h1 _
  subst h1; exact hc

theorem char_isDigit_toNat {c : Char} (h : c.isDigit = true) :
    48 ≤ c.toNat ∧ c.toNat ≤ 57 := by
  simp [Char.isDigit] at h
  exact ⟨h.1, h.2⟩

theorem digit_facts {c : Char} (h : c.isDigit = true) :
    c ≠ 'n' ∧ c ≠ 't' ∧ c ≠ 'f' ∧ c ≠ '"' ∧ c ≠ '-' ∧ wsChar c = false := by
  have hb := char_isDigit_toNat h
  refine ⟨fun he => ?_, fun he => ?_, fun he => ?_, fun he => ?_, fun he => ?_, ?_⟩
  · subst he; exact absurd hb.2 (by decide)
  · subst he; exact absurd hb.2 (by decide)
  · subst he; exact absurd hb.2 (by decide)
  · subst he; exact absurd hb.1 (by decide)
  · subst he; exact absurd hb.1 (by decide)
  · cases hw : wsChar c with
    | false => rfl
    | true => rw [wsChar_not_digit hw] at h; cases h

theorem digitChar_isDigit {n : Nat} (h : n < 10) : (digitChar n).isDigit = true := by
  interval_cases n <;> rfl

theorem digitChar_val {n : Nat} (h : n < 10) : (digitChar n).toNat - '0'.toNat = n := by
  interval_cases n <;> rfl

theorem digitsVal_append_one (xs : List Char) (c : Char) :
    digitsVal (xs ++ [c]) = 10 * digitsVal xs + (c.toNat - '0'.toNat) := by
  simp [digitsVal, List.foldl_append]

theorem natToChars_ne_nil (n : Nat) : natToChars n ≠ [] := by
  rw [natToChars]
  split_ifs <;> simp

theorem natToChars_digits (n : Nat) : ∀ c ∈ natToChars n, c.isDigit = true := by
  induction n using Nat.strong_induction_on with
  | _ n ih =>
    rw [natToChars]
    split_ifs with h
    · intro c hc
      simp only [List.mem_singleton] at hc
      subst hc; exact digitChar_isDigit h
    · intro c hc
      rw [List.mem_append] at hc
      rcases hc with hc | hc
      · exact ih (n / 10) (Nat.div_lt_self (by omega) (by omega)) c hc
      · simp only [List.mem_singleton] at hc
        subst hc; exact digitChar_isDigit (by omega)

theorem digitsVal_natToChars (n : Nat) : digitsVal (natToChars n) = n := by
  induction n using Nat.strong_induction_on with
  | _ n ih =>
    rw [natToChars]
    split_ifs with h
    · have hv := digitChar_val h
      show 10 * 0 + ((digitChar n).toNat - '0'.toNat) = n
      omega
    · rw [digitsVal_append_one, ih (n / 10) (Nat.div_lt_self (by omega) (by omega))]
      have hv := digitChar_val (show n % 10 < 10 by omega)
      omega

theorem natToChars_head (n : Nat) : ∃ d t, d < 10 ∧ natToChars n = digitChar d :: t := by
  induction n using Nat.strong_induction_on with
  | _ n ih =>
    rw [natToChars]
    split_ifs with h
    · exact ⟨n, [], h, rfl⟩
    · obtain ⟨d, t, hd, he⟩ := ih (n / 10) (Nat.div_lt_self (by omega) (by omega))
      exact ⟨d, t ++ [digitChar (n % 10)], hd, by rw [he]; rfl⟩

theorem spanDigits_app {xs rest : List Char} (hxs : ∀ c ∈ xs, c.isDigit = true)
    (hrest : restOk rest) : spanDigits (xs ++ rest) = (xs, rest) := by
  induction xs with
  | nil =>
    cases rest with
    | nil => rfl
    | cons c t =>
      have hc := hrest c t rfl
      simp [spanDigits, hc]
  | cons c xs ih =>
    have hc := hxs c (by simp)
    simp only [List.cons_append, spanDigits, hc, if_true]
    show (c :: (spanDigits (xs ++ rest)).1, (spanDigits (xs ++ rest)).2) = (c :: xs, rest)
    rw [ih (fun d hd => hxs d (by simp [hd]))]
theorem jsize_pos (j : Json) : 1 ≤ jsize j := by
  cases j <;> simp [jsize]

theorem parseVal_digit_head (f : Nat) (c : Char) (r : List Char) (h0 : c.isDigit = true) :
    parseVal (f+1) (c :: r) =
      some (.num (digitsVal (spanDigits (c :: r)).1), (spanDigits (c :: r)).2) := by
  obtain ⟨hn, ht, hf, hq, hm, hw⟩ := digit_facts h0
  simp only [parseVal]
  rw [skipWs_nonws hw]
  simp only [if_neg hn, if_neg ht, if_neg hf, if_neg hq, if_neg hm, h0, if_true]

theorem parseVal_intToChars (f : Nat) (n : Int) (rest : List Char) (hrest : restOk rest) :
    parseVal (f + 1) (intToChars n ++ rest) = some (.num n, rest) := by
  by_cases hn : n < 0
  · rw [intToChars, if_pos hn]
    have e : parseVal (f+1) (('-' :: natToChars (-n).toNat) ++ rest) =
        (if (spanDigits (natToChars (-n).toNat ++ rest)).1 = [] then none
         else some (.num (-(digitsVal (spanDigits (natToChars (-n).toNat ++ rest)).1 : Int)),
                     (spanDigits (natToChars (-n).toNat ++ rest)).2)) := rfl
    rw [e, spanDigits_app (natToChars_digits _) hrest]
    rw [if_neg (natToChars_ne_nil _)]
    rw [digitsVal_natToChars]
    have hval : (-(((-n).toNat : Nat) : Int)) = n := by omega
    rw [hval]
  · rw [intToChars, if_neg hn]
    obtain ⟨d, t, hd, he⟩ := natToChars_head n.toNat
    have hdig : ∀ c ∈ natToChars n.toNat, c.isDigit = true := natToChars_digits _
    rw [he] at hdig ⊢
    rw [List.cons_append]
    rw [parseVal_digit_head f _ _ (hdig _ (by simp))]
    rw [show digitChar d :: (t ++ rest) = (digitChar d :: t) ++ rest from rfl]
    rw [spanDigits_app hdig hrest]
    rw [show (digitChar d :: t) = natToChars n.toNat from he.symm]
    rw [digitsVal_natToChars]
    have hval : ((n.toNat : Nat) : Int) = n := by omega
    rw [hval]
theorem dumpJson_head (j : Json) (lvl : Nat) :
    ∃ c t, dumpJson j lvl = c :: t ∧ wsChar c = false ∧ c ≠ ']' ∧ c ≠ '}' := by
  cases j with
  | null => refine ⟨'n', _, rfl, ?_, ?_, ?_⟩ <;> decide
  | bool b =>
    rcases b with _ | _
    · refine ⟨'f', _, rfl, ?_, ?_, ?_⟩ <;> decide
    · refine ⟨'t', _, rfl, ?_, ?_, ?_⟩ <;> decide
  | num n =>
    by_cases hn : n < 0
    · exact ⟨'-', _, by rw [show dumpJson (.num n) lvl = intToChars n from rfl, intToChars, if_pos hn],
        by decide, by decide, by decide⟩
    · obtain ⟨d, t, hd, he⟩ := natToChars_head n.toNat
      have hdig : (digitChar d).isDigit = true := digitChar_isDigit hd
      have hb := char_isDigit_toNat hdig
      refine ⟨digitChar d, t, ?_, ?_, ?_, ?_⟩
      · rw [show dumpJson (.num n) lvl = intToChars n from rfl, intToChars, if_neg hn, he]
      · exact (digit_facts hdig).2.2.2.2.2
      · intro hcon; rw [hcon] at hb; exact absurd hb.2 (by decide)
      · intro hcon; rw [hcon] at hb; exact absurd hb.2 (by decide)
  | str s => refine ⟨'"', _, rfl, ?_, ?_, ?_⟩ <;> decide
  | arr l =>
    rcases l with _ | ⟨h, t⟩
    · refine ⟨'[', _, rfl, ?_, ?_, ?_⟩ <;> decide
    · refine ⟨'[', _, rfl, ?_, ?_, ?_⟩ <;> decide
  | obj o =>
    rcases o with _ | ⟨k, v, t⟩
    · refine ⟨'{', _, rfl, ?_, ?_, ?_⟩ <;> decide
    · refine ⟨'{', _, rfl, ?_, ?_, ?_⟩ <;> decide
theorem dumpArr_head (hd : Json) (tl : JsonArr) (lvl : Nat) :
    ∃ c r, dumpArr (JsonArr.cons hd tl) lvl = c :: r ∧ wsChar c = false ∧ c ≠ ']' ∧ c ≠ '}' := by
  obtain ⟨c, r, he, hw, h1, h2⟩ := dumpJson_head hd lvl
  cases tl with
  | nil => exact ⟨c, r, he, hw, h1, h2⟩
  | cons hd2 tl2 =>
    refine ⟨c, r ++ (',' :: '\n' :: (spaces lvl ++ dumpArr (JsonArr.cons hd2 tl2) lvl)), ?_, hw, h1, h2⟩
    show dumpJson hd lvl ++ (',' :: '\n' :: (spaces lvl ++ dumpArr (JsonArr.cons hd2 tl2) lvl)) = _
    rw [he]; rfl

mutual
theorem parse_dumpJson (j : Json) (f lvl : Nat) (rest : List Char)
    (hfu : jsize j ≤ f) (hrest : restOk rest) :
    parseVal f (dumpJson j lvl ++ rest) = some (j, rest) := by
  cases f with
  | zero => exact absurd hfu (by have := jsize_pos j; omega)
  | succ f =>
    cases j with
    | null => rfl
    | bool b => cases b <;> rfl
    | num n => exact parseVal_intToChars f n rest hrest
    | str s =>
      show parseVal (f+1) (('"' :: (escapeString s ++ ['"'])) ++ rest) = some (.str s, rest)
      have e : parseVal (f+1) ('"' :: ((escapeString s ++ ['"']) ++ rest)) =
          (parseStringBody ((escapeString s ++ ['"']) ++ rest)).map
            (fun p => (Json.str p.1, p.2)) := rfl
      rw [List.cons_append, e]
      rw [show (escapeString s ++ ['"']) ++ rest = escapeString s ++ '"' :: rest by simp]
      rw [parseStringBody_escape]
      rfl
    | arr l =>
      cases l with
      | nil => rfl
      | cons hd tl =>
        show parseVal (f+1)
            (('[' :: '\n' :: (spaces (lvl+2) ++ dumpArr (JsonArr.cons hd tl) (lvl+2) ++
              '\n' :: (spaces lvl ++ [']']))) ++ rest) = some (.arr (.cons hd tl), rest)
        have e : parseVal (f+1)
            (('[' :: '\n' :: (spaces (lvl+2) ++ dumpArr (JsonArr.cons hd tl) (lvl+2) ++
              '\n' :: (spaces lvl ++ [']']))) ++ rest) =
            (if (skipWs ('\n' :: ((spaces (lvl+2) ++ dumpArr (JsonArr.cons hd tl) (lvl+2) ++
                  '\n' :: (spaces lvl ++ [']'])) ++ rest))).head? = some ']' then
              some (.arr .nil, (skipWs ('\n' :: ((spaces (lvl+2) ++
                dumpArr (JsonArr.cons hd tl) (lvl+2) ++
                '\n' :: (spaces lvl ++ [']'])) ++ rest))).tail)
             else (parseArrElems f ('\n' :: ((spaces (lvl+2) ++
                dumpArr (JsonArr.cons hd tl) (lvl+2) ++
                '\n' :: (spaces lvl ++ [']'])) ++ rest))).map
                  (fun p => (Json.arr p.1, p.2))) := rfl
        obtain ⟨c0, t0, heA, hw0, hb0, _⟩ := dumpArr_head hd tl (lvl+2)
        have hre : '\n' :: ((spaces (lvl+2) ++ dumpArr (JsonArr.cons hd tl) (lvl+2) ++
              '\n' :: (spaces lvl ++ [']'])) ++ rest) =
            ('\n' :: spaces (lvl+2)) ++ (dumpArr (JsonArr.cons hd tl) (lvl+2) ++
              (('\n' :: spaces lvl) ++ (']' :: rest))) := by
          simp [List.append_assoc]
        have hsk : skipWs ('\n' :: ((spaces (lvl+2) ++ dumpArr (JsonArr.cons hd tl) (lvl+2) ++
              '\n' :: (spaces lvl ++ [']'])) ++ rest)) =
            c0 :: (t0 ++ (('\n' :: spaces lvl) ++ (']' :: rest))) := by
          rw [hre, skipWs_app (allWs_nl_spaces _), heA, List.cons_append, skipWs_nonws hw0]
        rw [e, if_neg (by rw [hsk]; simp [hb0])]
        have hAE : parseArrElems f ('\n' :: ((spaces (lvl+2) ++
              dumpArr (JsonArr.cons hd tl) (lvl+2) ++
              '\n' :: (spaces lvl ++ [']'])) ++ rest)) =
            some (JsonArr.cons hd tl, rest) := by
          rw [hre, parseArrElems_ws f (allWs_nl_spaces _)]
          refine parse_dumpArr hd tl f (lvl+2) ('\n' :: spaces lvl) rest ?_ (allWs_nl_spaces _)
          simp only [jsize] at hfu; omega
        rw [hAE]
        rfl
    | obj o =>
      cases o with
      | nil => rfl
      | cons k v tl =>
        show parseVal (f+1)
            (('{' :: '\n' :: (spaces (lvl+2) ++ dumpObj (JsonObj.cons k v tl) (lvl+2) ++
              '\n' :: (spaces lvl ++ ['}']))) ++ rest) = some (.obj (.cons k v tl), rest)
        have e : parseVal (f+1)
            (('{' :: '\n' :: (spaces (lvl+2) ++ dumpObj (JsonObj.cons k v tl) (lvl+2) ++
              '\n' :: (spaces lvl ++ ['}']))) ++ rest) =
            (if (skipWs ('\n' :: ((spaces (lvl+2) ++ dumpObj (JsonObj.cons k v tl) (lvl+2) ++
                  '\n' :: (spaces lvl ++ ['}'])) ++ rest))).head? = some '}' then
              some (.obj .nil, (skipWs ('\n' :: ((spaces (lvl+2) ++
                dumpObj (JsonObj.cons k v tl) (lvl+2) ++
                '\n' :: (spaces lvl ++ ['}'])) ++ rest))).tail)
             else (parseObjFields f ('\n' :: ((spaces (lvl+2) ++
                dumpObj (JsonObj.cons k v tl) (lvl+2) ++
                '\n' :: (spaces lvl ++ ['}'])) ++ rest))).map
                  (fun p => (Json.obj p.1, p.2))) := rfl
        have hre : '\n' :: ((spaces (lvl+2) ++ dumpObj (JsonObj.cons k v tl) (lvl+2) ++
              '\n' :: (spaces lvl ++ ['}'])) ++ rest) =
            ('\n' :: spaces (lvl+2)) ++ (dumpObj (JsonObj.cons k v tl) (lvl+2) ++
              (('\n' :: spaces lvl) ++ ('}' :: rest))) := by
          simp [List.append_assoc]
        have heO : ∃ r0, dumpObj (JsonObj.cons k v tl) (lvl+2) = '"' :: r0 := by
          cases tl <;> exact ⟨_, rfl⟩
        obtain ⟨r0, heO⟩ := heO
        have hsk : skipWs ('\n' :: ((spaces (lvl+2) ++ dumpObj (JsonObj.cons k v tl) (lvl+2) ++
              '\n' :: (spaces lvl ++ ['}'])) ++ rest)) =
            '"' :: (r0 ++ (('\n' :: spaces lvl) ++ ('}' :: rest))) := by
          rw [hre, skipWs_app (allWs_nl_spaces _), heO, List.cons_append,
            skipWs_nonws (by decide)]
        rw [e, if_neg (by rw [hsk]; simp)]
        have hOF : parseObjFields f ('\n' :: ((spaces (lvl+2) ++
              dumpObj (JsonObj.cons k v tl) (lvl+2) ++
              '\n' :: (spaces lvl ++ ['}'])) ++ rest)) =
            some (JsonObj.cons k v tl, rest) := by
          rw [hre, parseObjFields_ws f (allWs_nl_spaces _)]
          refine parse_dumpObj k v tl f (lvl+2) ('\n' :: spaces lvl) rest ?_ (allWs_nl_spaces _)
          simp only [jsize] at hfu; omega
        rw [hOF]
        rfl
termination_by sizeOf j

theorem parse_dumpArr (hd : Json) (tl : JsonArr) (f lvl : Nat) (ws rest : List Char)
    (hfu : asize (JsonArr.cons hd tl) ≤ f) (hws : allWs ws) :
    parseArrElems f (dumpArr (JsonArr.cons hd tl) lvl ++ (ws ++ (']' :: rest))) =
      some (JsonArr.cons hd tl, rest) := by
  cases f with
  | zero => exact absurd hfu (by simp only [asize]; omega)
  | succ f =>
    cases tl with
    | nil =>
      show parseArrElems (f+1) (dumpJson hd lvl ++ (ws ++ (']' :: rest))) =
        some (JsonArr.cons hd .nil, rest)
      have e : parseArrElems (f+1) (dumpJson hd lvl ++ (ws ++ (']' :: rest))) =
          (match parseVal f (dumpJson hd lvl ++ (ws ++ (']' :: rest))) with
           | none => none
           | some (v, r) =>
             match skipWs r with
             | [] => none
             | c :: r2 =>
               if c = ',' then
                 (parseArrElems f r2).map (fun p => (JsonArr.cons v p.1, p.2))
               else if c = ']' then some (JsonArr.cons v .nil, r2)
               else none) := rfl
      rw [e, parse_dumpJson hd f lvl _ (by simp only [asize] at hfu; omega)
        (restOk_ws_append hws (by decide) rest)]
      dsimp only
      rw [skipWs_app hws, skipWs_nonws (by decide)]
      simp
    | cons hd2 tl2 =>
      show parseArrElems (f+1)
          ((dumpJson hd lvl ++ ',' :: '\n' :: (spaces lvl ++ dumpArr (JsonArr.cons hd2 tl2) lvl)) ++
            (ws ++ (']' :: rest))) = some (JsonArr.cons hd (JsonArr.cons hd2 tl2), rest)
      have hre : (dumpJson hd lvl ++ ',' :: '\n' :: (spaces lvl ++
            dumpArr (JsonArr.cons hd2 tl2) lvl)) ++ (ws ++ (']' :: rest)) =
          dumpJson hd lvl ++ (',' :: ('\n' :: (spaces lvl ++
            (dumpArr (JsonArr.cons hd2 tl2) lvl ++ (ws ++ (']' :: rest)))))) := by
        simp [List.append_assoc]
      rw [hre]
      have e : parseArrElems (f+1) (dumpJson hd lvl ++ (',' :: ('\n' :: (spaces lvl ++
            (dumpArr (JsonArr.cons hd2 tl2) lvl ++ (ws ++ (']' :: rest))))))) =
          (match parseVal f (dumpJson hd lvl ++ (',' :: ('\n' :: (spaces lvl ++
              (dumpArr (JsonArr.cons hd2 tl2) lvl ++ (ws ++ (']' :: rest))))))) with
           | none => none
           | some (v, r) =>
             match skipWs r with
             | [] => none
             | c :: r2 =>
               if c = ',' then
                 (parseArrElems f r2).map (fun p => (JsonArr.cons v p.1, p.2))
               else if c = ']' then some (JsonArr.cons v .nil, r2)
               else none) := rfl
      rw [e, parse_dumpJson hd f lvl _ (by simp only [asize] at hfu; have := jsize_pos hd; omega)
        (restOk_cons (by decide) _)]
      dsimp only
      rw [skipWs_nonws (by decide)]
      dsimp only
      rw [if_pos rfl]
      have hT : parseArrElems f ('\n' :: (spaces lvl ++
            (dumpArr (JsonArr.cons hd2 tl2) lvl ++ (ws ++ (']' :: rest))))) =
          some (JsonArr.cons hd2 tl2, rest) := by
        rw [show '\n' :: (spaces lvl ++ (dumpArr (JsonArr.cons hd2 tl2) lvl ++
              (ws ++ (']' :: rest)))) =
            ('\n' :: spaces lvl) ++ (dumpArr (JsonArr.cons hd2 tl2) lvl ++
              (ws ++ (']' :: rest))) from rfl]
        rw [parseArrElems_ws f (allWs_nl_spaces _)]
        exact parse_dumpArr hd2 tl2 f lvl ws rest
          (by simp only [asize] at hfu ⊢; have := jsize_pos hd; omega) hws
      rw [hT]
      rfl
termination_by sizeOf (JsonArr.cons hd tl)

theorem parse_dumpObj (k : List Char) (v : Json) (tl : JsonObj) (f lvl : Nat)
    (ws rest : List Char) (hfu : osize (JsonObj.cons k v tl) ≤ f) (hws : allWs ws) :
    parseObjFields f (dumpObj (JsonObj.cons k v tl) lvl ++ (ws ++ ('}' :: rest))) =
      some (JsonObj.cons k v tl, rest) := by
  cases f with
  | zero => exact absurd hfu (by simp only [osize]; omega)
  | succ f =>
    cases tl with
    | nil =>
      show parseObjFields (f+1)
          (('"' :: (escapeString k ++ '"' :: ':' :: ' ' :: dumpJson v lvl)) ++
            (ws ++ ('}' :: rest))) = some (JsonObj.cons k v .nil, rest)
      have e : parseObjFields (f+1)
          ('"' :: ((escapeString k ++ '"' :: ':' :: ' ' :: dumpJson v lvl) ++
            (ws ++ ('}' :: rest)))) =
          (match parseStringBody ((escapeString k ++ '"' :: ':' :: ' ' :: dumpJson v lvl) ++
              (ws ++ ('}' :: rest))) with
           | none => none
           | some (k2, r2) =>
             match skipWs r2 with
             | [] => none
             | c2 :: r3 =>
               if c2 = ':' then
                 match parseVal f r3 with
                 | none => none
                 | some (v2, r4) =>
                   match skipWs r4 with
                   | [] => none
                   | c3 :: r5 =>
                     if c3 = ',' then
                       (parseObjFields f r5).map (fun p => (JsonObj.cons k2 v2 p.1, p.2))
                     else if c3 = '}' then some (JsonObj.cons k2 v2 .nil, r5)
                     else none
               else none) := rfl
      rw [List.cons_append, e]
      rw [show (escapeString k ++ '"' :: ':' :: ' ' :: dumpJson v lvl) ++ (ws ++ ('}' :: rest)) =
          escapeString k ++ '"' :: (':' :: ' ' :: (dumpJson v lvl ++ (ws ++ ('}' :: rest)))) from
        by simp [List.append_assoc]]
      rw [parseStringBody_escape]
      dsimp only
      rw [skipWs_nonws (by decide)]
      dsimp only
      rw [if_pos rfl]
      rw [show ' ' :: (dumpJson v lvl ++ (ws ++ ('}' :: rest))) =
          [' '] ++ (dumpJson v lvl ++ (ws ++ ('}' :: rest))) from rfl]
      rw [parseVal_ws f allWs_single_space]
      rw [parse_dumpJson v f lvl _ (by simp only [osize] at hfu; omega)
        (restOk_ws_append hws (by decide) rest)]
      dsimp only
      rw [skipWs_app hws, skipWs_nonws (by decide)]
      simp
    | cons k2 v2 tl2 =>
      show parseObjFields (f+1)
          ((('"' :: (escapeString k ++ '"' :: ':' :: ' ' :: dumpJson v lvl)) ++
            ',' :: '\n' :: (spaces lvl ++ dumpObj (JsonObj.cons k2 v2 tl2) lvl)) ++
            (ws ++ ('}' :: rest))) = some (JsonObj.cons k v (JsonObj.cons k2 v2 tl2), rest)
      have hre : (('"' :: (escapeString k ++ '"' :: ':' :: ' ' :: dumpJson v lvl)) ++
            ',' :: '\n' :: (spaces lvl ++ dumpObj (JsonObj.cons k2 v2 tl2) lvl)) ++
            (ws ++ ('}' :: rest)) =
          '"' :: (escapeString k ++ '"' :: (':' :: ' ' :: (dumpJson v lvl ++
            (',' :: ('\n' :: (spaces lvl ++ (dumpObj (JsonObj.cons k2 v2 tl2) lvl ++
              (ws ++ ('}' :: rest))))))))) := by
        simp [List.append_assoc]
      rw [hre]
      have e : parseObjFields (f+1)
          ('"' :: (escapeString k ++ '"' :: (':' :: ' ' :: (dumpJson v lvl ++
            (',' :: ('\n' :: (spaces lvl ++ (dumpObj (JsonObj.cons k2 v2 tl2) lvl ++
              (ws ++ ('}' :: rest)))))))))) =
          (match parseStringBody (escapeString k ++ '"' :: (':' :: ' ' :: (dumpJson v lvl ++
              (',' :: ('\n' :: (spaces lvl ++ (dumpObj (JsonObj.cons k2 v2 tl2) lvl ++
                (ws ++ ('}' :: rest))))))))) with
           | none => none
           | some (kk, r2) =>
             match skipWs r2 with
             | [] => none
             | c2 :: r3 =>
               if c2 = ':' then
                 match parseVal f r3 with
                 | none => none
                 | some (vv, r4) =>
                   match skipWs r4 with
                   | [] => none
                   | c3 :: r5 =>
                     if c3 = ',' then
                       (parseObjFields f r5).map (fun p => (JsonObj.cons kk vv p.1, p.2))
                     else if c3 = '}' then some (JsonObj.cons kk vv .nil, r5)
                     else none
               else none) := rfl
      rw [e, parseStringBody_escape]
      dsimp only
      rw [skipWs_nonws (by decide)]
      dsimp only
      rw [if_pos rfl]
      rw [show ' ' :: (dumpJson v lvl ++ (',' :: ('\n' :: (spaces lvl ++
            (dumpObj (JsonObj.cons k2 v2 tl2) lvl ++ (ws ++ ('}' :: rest))))))) =
          [' '] ++ (dumpJson v lvl ++ (',' :: ('\n' :: (spaces lvl ++
            (dumpObj (JsonObj.cons k2 v2 tl2) lvl ++ (ws ++ ('}' :: rest))))))) from rfl]
      rw [parseVal_ws f allWs_single_space]
      rw [parse_dumpJson v f lvl _
        (by simp only [osize] at hfu; have := jsize_pos v; omega)
        (restOk_cons (by decide) _)]
      dsimp only
      rw [skipWs_nonws (by decide)]
      dsimp only
      rw [if_pos rfl]
      have hT : parseObjFields f ('\n' :: (spaces lvl ++
            (dumpObj (JsonObj.cons k2 v2 tl2) lvl ++ (ws ++ ('}' :: rest))))) =
          some (JsonObj.cons k2 v2 tl2, rest) := by
        rw [show '\n' :: (spaces lvl ++ (dumpObj (JsonObj.cons k2 v2 tl2) lvl ++
              (ws ++ ('}' :: rest)))) =
            ('\n' :: spaces lvl) ++ (dumpObj (JsonObj.cons k2 v2 tl2) lvl ++
              (ws ++ ('}' :: rest))) from rfl]
        rw [parseObjFields_ws f (allWs_nl_spaces _)]
        exact parse_dumpObj k2 v2 tl2 f lvl ws rest
          (by simp only [osize] at hfu ⊢; have := jsize_pos v; omega) hws
      rw [hT]
      rfl
termination_by sizeOf (JsonObj.cons k v tl)
end
mutual
theorem jsize_le_len (j : Json) (lvl : Nat) : jsize j ≤ (dumpJson j lvl).length := by
  cases j with
  | null => simp [jsize, dumpJson]
  | bool b => cases b <;> simp [jsize, dumpJson]
  | num n =>
    show jsize (.num n) ≤ (intToChars n).length
    have hlen : 1 ≤ (intToChars n).length := by
      rw [intToChars]
      split_ifs
      · simp
      · have := natToChars_ne_nil n.toNat
        cases hh : natToChars n.toNat with
        | nil => exact absurd hh this
        | cons a b => simp [hh]
    simpa [jsize] using hlen
  | str s => simp [jsize, dumpJson]
  | arr l =>
    cases l with
    | nil => simp [jsize, asize, dumpJson]
    | cons hd tl =>
      have := asize_le_len hd tl (lvl + 2)
      simp only [jsize, dumpJson, List.length_cons, List.length_append]
      omega
  | obj o =>
    cases o with
    | nil => simp [jsize, osize, dumpJson]
    | cons k v tl =>
      have := osize_le_len k v tl (lvl + 2)
      simp only [jsize, dumpJson, List.length_cons, List.length_append]
      omega
termination_by sizeOf j

theorem asize_le_len (hd : Json) (tl : JsonArr) (lvl : Nat) :
    asize (JsonArr.cons hd tl) ≤ (dumpArr (JsonArr.cons hd tl) lvl).length + 1 := by
  cases tl with
  | nil =>
    have := jsize_le_len hd lvl
    simp only [asize, dumpArr]
    omega
  | cons hd2 tl2 =>
    have h1 := jsize_le_len hd lvl
    have h2 := asize_le_len hd2 tl2 lvl
    simp only [asize] at h2
    simp only [asize, dumpArr, List.length_append, List.length_cons]
    omega
termination_by sizeOf (JsonArr.cons hd tl)

theorem osize_le_len (k : List Char) (v : Json) (tl : JsonObj) (lvl : Nat) :
    osize (JsonObj.cons k v tl) ≤ (dumpObj (JsonObj.cons k v tl) lvl).length + 1 := by
  cases tl with
  | nil =>
    have := jsize_le_len v lvl
    simp only [osize, dumpObj, List.length_append, List.length_cons]
    omega
  | cons k2 v2 tl2 =>
    have h1 := jsize_le_len v lvl
    have h2 := osize_le_len k2 v2 tl2 lvl
    simp only [osize] at h2
    simp only [osize, dumpObj, List.length_append, List.length_cons]
    omega
termination_by sizeOf (JsonObj.cons k v tl)
end

theorem restOk_nil : restOk [] := by
  intro c t h
  cases h

theorem parseJson_dumpJson (j : Json) : parseJson (dumpJson j 0) = some j := by
  have h1 : parseVal ((dumpJson j 0).length + 1) (dumpJson j 0 ++ []) = some (j, []) :=
    parse_dumpJson j _ 0 [] (by have := jsize_le_len j 0; omega) restOk_nil
  rw [List.append_nil] at h1
  simp [parseJson, h1, skipWs]

/-! ## Checkpoint store (`_save/_load/_clear_breakpoint_info`)

Modelled from the spec: `_save_breakpoint_info` resolves the per-script
checkpoint directory with `config.get_script_breakpoint_dir(script_name)`,
but that accessor is absent from `src/core/config.py` (only
`get_script_log_dir` and `get_script_data_dir` exist there).  Spec section 8
prescribes the capability: "Checkpoint filesystem path: one latest-checkpoint
file per script name", and section 4.3 makes the write an external-storage
contract ("partial writes must not corrupt the latest record").  The store
below is that per-script slice of the filesystem — the text of
`latest_breakpoint.json` and of the accumulated timestamped
`breakpoint_*.json` files — with writes that succeed, as the contract
requires. -/

structure BpStore where
  latest : Option (List Char)
  history : List (List Char)

/-- `_save_breakpoint_info`: dump the record once to a timestamped history
file and once to `latest_breakpoint.json`, both via
`json.dump(..., ensure_ascii=False, indent=2)`. -/
def save_breakpoint_info (st : BpStore) (bp : Json) : BpStore :=
  { latest := some (dumpJson bp 0), history := dumpJson bp 0 :: st.history }

/-- `_load_latest_breakpoint_info`: `None` when the latest file does not
exist; otherwise `json.load` of its content, with any exception (e.g. a
parse error) also turned into `None` by the surrounding `try/except`. -/
def load_latest_breakpoint_info (st : BpStore) : Option Json :=
  match st.latest with
  | none => none
  | some content => parseJson content

/-- `_clear_breakpoint_info`: removes only `latest_breakpoint.json`; the
timestamped history files are left in place. -/
def clear_breakpoint_info (st : BpStore) : BpStore :=
  { latest := none, history := st.history }

/-! ## The iterative execution engine (`iterate_script` / `catch_on`)

The engine is modelled over abstract item and result types.  A script
module is its `depend` payload together with its `iteration` function;
the reflection-driven arity dispatch (1/2/3-or-more/0 parameters) only
changes which plumbing arguments are passed and is collapsed into a
single function of the dependency item.  Database/log side effects inside
the success branch sit in their own `try/except` and do not influence
control flow, counters or the checkpoint, so they are not modelled.
Import failures, a missing `depend`/`iteration` attribute and a
non-iterable dependency payload all raise into the outer `try/except`,
which leaves the already-accumulated result fields in place. -/

/-- Outcome of calling the script's `depend` function. -/
inductive DependResult (α : Type) where
  | nothing : DependResult α
  | items (l : List α) : DependResult α
  | nonIterable : DependResult α

structure IterModule (α β : Type) where
  hasDepend : Bool
  depend : DependResult α
  hasIteration : Bool
  iteration : α → Except (List Char) β

/-- One entry of `result['iteration_results']` / `continued_iterations`. -/
structure IterRecord (α β : Type) where
  index : Nat
  success : Bool
  result : Option β
  error : Option (List Char)
  item : α

/-- One entry of `result['error_items']`. -/
structure ErrorItem (α : Type) where
  index : Nat
  item : α
  error : List Char

/-- The `iterate_script` result dict (fields that carry engine state;
`message`, timestamps and `data_stored` are presentation only). -/
structure IterResult (α β : Type) where
  success : Bool
  total_iterations : Nat
  successful_iterations : Nat
  failed_iterations : Nat
  iteration_results : List (IterRecord α β)
  error_items : List (ErrorItem α)
  breakpoint_info : Option Json

variable {α β : Type}

def emptyIterResult : IterResult α β :=
  { success := false, total_iterations := 0, successful_iterations := 0,
    failed_iterations := 0, iteration_results := [], error_items := [],
    breakpoint_info := none }

/-- The `for i, depend_item in enumerate(depend_data)` loop of
`iterate_script`, returning `(iteration_results, error_items,
successful_iterations, failed_iterations)`. -/
def iterLoop (f : α → Except (List Char) β) (is_err_stop : Bool) :
    List α → Nat → List (IterRecord α β) × List (ErrorItem α) × Nat × Nat
  | [], _ => ([], [], 0, 0)
  | item :: rest, i =>
    match f item with
    | .ok res =>
      let p := iterLoop f is_err_stop rest (i + 1)
      (⟨i, true, some res, none, item⟩ :: p.1, p.2.1, p.2.2.1 + 1, p.2.2.2)
    | .error msg =>
      if is_err_stop then
        ([⟨i, false, none, some msg, item⟩], [⟨i, item, msg⟩], 0, 1)
      else
        let p := iterLoop f is_err_stop rest (i + 1)
        (⟨i, false, none, some msg, item⟩ :: p.1, ⟨i, item, msg⟩ :: p.2.1,
          p.2.2.1, p.2.2.2 + 1)

/-- The backwards scan `for i in range(len(iteration_results)-1, -1, -1)`
looking for the last successful entry (by list position). -/
def lastSuccessfulIndexAux : List (IterRecord α β) → Nat → Option Nat
  | [], _ => none
  | r :: rest, i =>
    match lastSuccessfulIndexAux rest (i + 1) with
    | some j => some j
    | none => if r.success then some i else none

def lastSuccessfulIndex (rs : List (IterRecord α β)) : Option Nat :=
  lastSuccessfulIndexAux rs 0

/-- The `breakpoint_info` dict built by `iterate_script` (step 7). -/
def mkBreakpointJson (script_name : List Char) (total succ fail : Nat)
    (lsi : Option Nat) (nowStr : List Char) : Json :=
  .obj (.cons "script_name".data (.str script_name)
    (.cons "total_items".data (.num total)
      (.cons "successful_items".data (.num succ)
        (.cons "failed_items".data (.num fail)
          (.cons "last_successful_index".data
              (match lsi with | none => .null | some i => .num i)
            (.cons "last_execution_time".data (.str nowStr) .nil))))))

/-- `iterate_script`.  `nowStr` stands for
`datetime.now().isoformat()` at checkpoint-writing time. -/
def iterate_script (m : IterModule α β) (script_name nowStr : List Char)
    (is_err_stop : Bool) (st : BpStore) : IterResult α β × BpStore :=
  if m.hasDepend = false then (emptyIterResult, st)
  else
    match m.depend with
    | .nothing => ({ emptyIterResult with success := true }, st)
    | .nonIterable => (emptyIterResult, st)
    | .items l =>
      if m.hasIteration = false then
        ({ emptyIterResult with total_iterations := l.length }, st)
      else
        let p := iterLoop m.iteration is_err_stop l 0
        let bp := mkBreakpointJson script_name l.length p.2.2.1 p.2.2.2
          (lastSuccessfulIndex p.1) nowStr
        ({ success := if p.2.2.2 = 0 then true else if 0 < p.2.2.1 then true else false,
           total_iterations := l.length,
           successful_iterations := p.2.2.1,
           failed_iterations := p.2.2.2,
           iteration_results := p.1,
           error_items := p.2.1,
           breakpoint_info := some bp },
         save_breakpoint_info st bp)

/-- Field lookup in a JSON object, as `dict[key]` / `'key' in dict`. -/
def objLookup (key : List Char) : JsonObj → Option Json
  | .nil => none
  | .cons k v t => if k = key then some v else objLookup key t

def jLookup (j : Json) (key : List Char) : Option Json :=
  match j with
  | .obj o => objLookup key o
  | _ => none

/-- `breakpoint_info.get(key, 0)` followed by integer arithmetic: a missing
key defaults to `0`; a present non-integer value raises `TypeError` at the
`+` (propagated to the outer handler), hence `none`. -/
def bpGetNumD (bp : Json) (key : List Char) : Option Int :=
  match jLookup bp key with
  | none => some 0
  | some (.num n) => some n
  | some _ => none

structure CatchResult (α β : Type) where
  success : Bool
  breakpoint_info : Option Json
  continued_iterations : List (IterRecord α β)
  total_continued : Nat
  successful_continued : Nat
  failed_continued : Nat

def emptyCatchResult : CatchResult α β :=
  { success := false, breakpoint_info := none, continued_iterations := [],
    total_continued := 0, successful_continued := 0, failed_continued := 0 }

/-- The checkpoint written by `catch_on` when every continued iteration
succeeded. -/
def mkCatchBreakpointJson (script_name : List Char) (total : Nat)
    (succ fail : Int) (lsi : Nat) (nowStr : List Char) (start : Nat) : Json :=
  .obj (.cons "script_name".data (.str script_name)
    (.cons "total_items".data (.num total)
      (.cons "successful_items".data (.num succ)
        (.cons "failed_items".data (.num fail)
          (.cons "last_successful_index".data (.num lsi)
            (.cons "last_execution_time".data (.str nowStr)
              (.cons "catch_on_executed".data (.bool true)
                (.cons "catch_on_start_index".data (.num start) .nil))))))))

/-- Steps 2–9 of `catch_on` once `start_index` is known.  The continuation
loop always breaks at the first failure (independently of any flag); on a
clean run the checkpoint is rewritten with the cumulative counters and then
cleared when the cumulative successes cover the whole list.  A non-integer
counter in the loaded checkpoint makes the `get(...) + ...` arithmetic raise
after the loop, so the loop's counters survive but the status/checkpoint
steps are skipped. -/
def catchRun (m : IterModule α β) (script_name nowStr : List Char) (st : BpStore)
    (bp : Json) (start : Nat) : CatchResult α β × BpStore :=
  let resBp : CatchResult α β := { emptyCatchResult with breakpoint_info := some bp }
  if m.hasDepend = false then (resBp, st)
  else
    match m.depend with
    | .nothing => (resBp, st)
    | .nonIterable => (resBp, st)
    | .items l =>
      if start ≥ l.length then (resBp, st)
      else if m.hasIteration = false then (resBp, st)
      else
        let p := iterLoop m.iteration true (l.drop start) start
        let s := p.2.2.1
        let fl := p.2.2.2
        if fl = 0 then
          match bpGetNumD bp "successful_items".data, bpGetNumD bp "failed_items".data with
          | some so, some fo =>
            let st1 := save_breakpoint_info st
              (mkCatchBreakpointJson script_name l.length (so + s) (fo + fl)
                (l.length - 1) nowStr start)
            let st2 := if so + (s : Int) = (l.length : Int) then
                clear_breakpoint_info st1
              else st1
            ({ success := true, breakpoint_info := some bp,
               continued_iterations := p.1, total_continued := s + fl,
               successful_continued := s, failed_continued := fl }, st2)
          | _, _ =>
            ({ resBp with
                continued_iterations := p.1, total_continued := s + fl,
                successful_continued := s, failed_continued := fl }, st)
        else
          ({ success := if 0 < s then true else false, breakpoint_info := some bp,
             continued_iterations := p.1, total_continued := s + fl,
             successful_continued := s, failed_continued := fl }, st)

/-- `catch_on`: load the checkpoint, validate it, derive `start_index`,
then continue.  A checkpoint without `last_successful_index` is rejected
with the "invalid format" message; a missing `total_items` raises `KeyError`
into the outer handler; a non-integer in the `>=` comparison raises
`TypeError` likewise — all three return with `success = False` and the
store untouched. -/
def catch_on (m : IterModule α β) (script_name nowStr : List Char)
    (st : BpStore) : CatchResult α β × BpStore :=
  match load_latest_breakpoint_info st with
  | none => (emptyCatchResult, st)
  | some bp =>
    let resBp : CatchResult α β := { emptyCatchResult with breakpoint_info := some bp }
    match jLookup bp "last_successful_index".data with
    | none => (resBp, st)
    | some lsiJ =>
      match jLookup bp "total_items".data with
      | none => (resBp, st)
      | some tiJ =>
        match lsiJ, tiJ with
        | .null, _ => catchRun m script_name nowStr st bp 0
        | .num k, .num ti =>
          if k ≥ ti - 1 then ({ resBp with success := true }, st)
          else catchRun m script_name nowStr st bp (k + 1).toNat
        | _, _ => (resBp, st)

/-! ## Scheduler loading (`_load_scripts`) -/

/-- One row of the schedule table as `_load_scripts` reads it.  A `NULL`
period and an empty-string period are both falsy for `if script.period:`
and are modelled as `[]`. -/
structure ScheduleEntry where
  name : List Char
  period : List Char
  last_sync_datetime : Option DateTime
  start_time : Option (List Char)
  end_time : Option (List Char)
  step : Option (List Char)

/-- Python `x or default` over optional strings: `None` and `""` fall to
the default. -/
def pyOrStr (o : Option (List Char)) (d : List Char) : List Char :=
  match o with
  | none => d
  | some s => if s = [] then d else s

/-- The loading loop of `_load_scripts`.  The whole `for` sits inside one
`try/except`, so the first entry whose `calcNextSyncDatetime` raises
abandons the loop: the pairs pushed so far stay on the heap (first
component) and the abort is recorded (second component `true`).  A computed
datetime is always truthy, so every successful entry is pushed. -/
def loadScripts (now : DateTime) : List ScheduleEntry → List (DateTime × List Char) × Bool
  | [] => ([], false)
  | e :: rest =>
    if e.period = [] then loadScripts now rest
    else
      let ls := match e.last_sync_datetime with
        | some d => d
        | none => now
      let stt := pyOrStr e.start_time "00:00:00".data
      let ett := pyOrStr e.end_time (pyOrStr (some stt) "23:59:59".data)
      let stp := pyOrStr e.step "0".data
      match calcNextSyncDatetime ls e.period stt ett stp with
      | .error _ => ([], true)
      | .ok t =>
        let p := loadScripts now rest
        ((t, e.name) :: p.1, p.2)

/-- C7: saving a checkpoint record — any JSON value, including nested
lists, nested dicts and null fields — and then loading the latest
checkpoint returns exactly the record that was saved. -/
theorem breakpoint_roundtrip (st : BpStore) (bp : Json) :
    load_latest_breakpoint_info (save_breakpoint_info st bp) = some bp := by
  simp [load_latest_breakpoint_info, save_breakpoint_info, parseJson_dumpJson]

/-- The failed entries of `iteration_results`, projected to the shape of
`error_items`. -/
def failedEntries (rs : List (IterRecord α β)) : List (ErrorItem α) :=
  rs.filterMap (fun r =>
    match r.success, r.error with
    | false, some msg => some ⟨r.index, r.item, msg⟩
    | _, _ => none)

theorem iterLoop_props (f : α → Except (List Char) β) (stop : Bool) :
    ∀ (xs : List α) (i : Nat),
    (iterLoop f stop xs i).2.1 = failedEntries (iterLoop f stop xs i).1 ∧
    (iterLoop f stop xs i).2.2.1 + (iterLoop f stop xs i).2.2.2 =
      (iterLoop f stop xs i).1.length ∧
    (iterLoop f stop xs i).1.length ≤ xs.length := by
  intro xs
  induction xs with
  | nil => intro i; exact ⟨rfl, rfl, Nat.le_refl 0⟩
  | cons x rest ih =>
    intro i
    obtain ⟨ih1, ih2, ih3⟩ := ih (i + 1)
    cases hfx : f x with
    | ok res =>
      simp only [iterLoop, hfx]
      refine ⟨?_, ?_, ?_⟩
      · rw [ih1]; rfl
      · simp only [List.length_cons]; omega
      · simp only [List.length_cons]; omega
    | error msg =>
      cases stop with
      | true =>
        simp only [iterLoop, hfx, if_true]
        exact ⟨rfl, rfl, by simp⟩
      | false =>
        simp only [iterLoop, hfx]
        rw [if_neg (by simp)]
        refine ⟨?_, ?_, ?_⟩
        · rw [ih1]; rfl
        · simp only [List.length_cons]; omega
        · simp only [List.length_cons]; omega

/-- C8: after every `iterate_script` run — whatever the module, the
dependency payload and whichever items fail — the failed items recorded in
`error_items` are exactly the failed entries of `iteration_results`
(aligned by index, with matching items and messages, hence of equal
length), and the successful plus failed counts never exceed the total item
count. -/
theorem iterate_script_invariants (m : IterModule α β) (sn ns : List Char)
    (stop : Bool) (st : BpStore) :
    (iterate_script m sn ns stop st).1.error_items =
      failedEntries (iterate_script m sn ns stop st).1.iteration_results ∧
    (iterate_script m sn ns stop st).1.successful_iterations +
        (iterate_script m sn ns stop st).1.failed_iterations ≤
      (iterate_script m sn ns stop st).1.total_iterations := by
  obtain ⟨hD, dep, hI, f⟩ := m
  cases hD with
  | false => exact ⟨rfl, Nat.le_refl 0⟩
  | true =>
    cases dep with
    | nothing => exact ⟨rfl, Nat.le_refl 0⟩
    | nonIterable => exact ⟨rfl, Nat.le_refl 0⟩
    | items l =>
      cases hI with
      | false => exact ⟨rfl, Nat.zero_le _⟩
      | true =>
        obtain ⟨h1, h2, h3⟩ := iterLoop_props f stop l 0
        refine ⟨h1, ?_⟩
        show (iterLoop f stop l 0).2.2.1 + (iterLoop f stop l 0).2.2.2 ≤ l.length
        omega

/-- C10: a `None` dependency payload is "nothing to do": the run succeeds
with zero totals, empty result and error lists, no checkpoint in the
result and none written to the store, and the script's `iteration`
function plays no role at all (the outcome is unchanged under replacing
it by any other function). -/
theorem iterate_script_none_depend (m : IterModule α β) (sn ns : List Char)
    (stop : Bool) (st : BpStore) (hd : m.hasDepend = true)
    (hn : m.depend = DependResult.nothing) :
    iterate_script m sn ns stop st =
      ({ emptyIterResult with success := true }, st) ∧
    ∀ (g : α → Except (List Char) β),
      iterate_script ⟨m.hasDepend, m.depend, m.hasIteration, g⟩ sn ns stop st =
        iterate_script m sn ns stop st := by
  constructor
  · rw [iterate_script, if_neg (by rw [hd]; simp), hn]
  · intro g
    rw [iterate_script, iterate_script]
    simp only [hn, hd]

def iterWitnessF (x : Nat) : Except (List Char) Nat :=
  if x = 2 then .error "boom".data else .ok (x * 2)

/-- Witness for C10 at a concrete module with a `None` dependency payload. -/
theorem iterate_script_none_depend_witness :
    iterate_script (⟨true, DependResult.nothing, true, iterWitnessF⟩ : IterModule Nat Nat)
        "s".data "T".data true ⟨none, []⟩ =
      ({ emptyIterResult with success := true }, ⟨none, []⟩) ∧
    ∀ (g : Nat → Except (List Char) Nat),
      iterate_script ⟨true, DependResult.nothing, true, g⟩ "s".data "T".data true ⟨none, []⟩ =
        iterate_script (⟨true, DependResult.nothing, true, iterWitnessF⟩ : IterModule Nat Nat)
          "s".data "T".data true ⟨none, []⟩ :=
  iterate_script_none_depend ⟨true, DependResult.nothing, true, iterWitnessF⟩
    "s".data "T".data true ⟨none, []⟩ rfl rfl

/-- Unfolding of `iterate_script` on a well-formed module whose dependency
payload is a list. -/
theorem iterate_script_items_eq (f : α → Except (List Char) β) (l : List α)
    (sn ns : List Char) (stop : Bool) (st : BpStore) :
    iterate_script ⟨true, .items l, true, f⟩ sn ns stop st =
      ({ success := if (iterLoop f stop l 0).2.2.2 = 0 then true
           else if 0 < (iterLoop f stop l 0).2.2.1 then true else false,
         total_iterations := l.length,
         successful_iterations := (iterLoop f stop l 0).2.2.1,
         failed_iterations := (iterLoop f stop l 0).2.2.2,
         iteration_results := (iterLoop f stop l 0).1,
         error_items := (iterLoop f stop l 0).2.1,
         breakpoint_info := some (mkBreakpointJson sn l.length
           (iterLoop f stop l 0).2.2.1 (iterLoop f stop l 0).2.2.2
           (lastSuccessfulIndex (iterLoop f stop l 0).1) ns) },
       save_breakpoint_info st (mkBreakpointJson sn l.length
         (iterLoop f stop l 0).2.2.1 (iterLoop f stop l 0).2.2.2
         (lastSuccessfulIndex (iterLoop f stop l 0).1) ns)) := rfl

/-- C4: an iterator run over five items where only the item at 0-based
index 2 fails, with stop-on-error: exactly two successes, one failure,
`error_items` holds exactly the index-2 item, the loop halts at the
failure (only three records exist, so items 3 and 4 were never invoked —
indeed the whole outcome is independent of how the function behaves on
them), and the persisted checkpoint records `last_successful_index = 1`. -/
theorem iterate_stop_on_error_scenario (f : α → Except (List Char) β)
    (a b c d e : α) (r0 r1 : β) (msg sn ns : List Char) (st : BpStore)
    (h0 : f a = .ok r0) (h1 : f b = .ok r1) (h2 : f c = .error msg) :
    (iterate_script ⟨true, .items [a,b,c,d,e], true, f⟩ sn ns true st).1.successful_iterations = 2 ∧
    (iterate_script ⟨true, .items [a,b,c,d,e], true, f⟩ sn ns true st).1.failed_iterations = 1 ∧
    (iterate_script ⟨true, .items [a,b,c,d,e], true, f⟩ sn ns true st).1.error_items =
      [⟨2, c, msg⟩] ∧
    (iterate_script ⟨true, .items [a,b,c,d,e], true, f⟩ sn ns true st).1.iteration_results.length = 3 ∧
    (∀ (g : α → Except (List Char) β), g a = .ok r0 → g b = .ok r1 → g c = .error msg →
      iterate_script ⟨true, .items [a,b,c,d,e], true, g⟩ sn ns true st =
        iterate_script ⟨true, .items [a,b,c,d,e], true, f⟩ sn ns true st) ∧
    (∃ bp, load_latest_breakpoint_info
        (iterate_script ⟨true, .items [a,b,c,d,e], true, f⟩ sn ns true st).2 = some bp ∧
      jLookup bp "last_successful_index".data = some (.num 1)) := by
  have hl : iterLoop f true [a,b,c,d,e] 0 =
      ([⟨0, true, some r0, none, a⟩, ⟨1, true, some r1, none, b⟩,
        ⟨2, false, none, some msg, c⟩], [⟨2, c, msg⟩], 2, 1) := by
    simp [iterLoop, h0, h1, h2]
  refine ⟨?_, ?_, ?_, ?_, ?_, ?_⟩
  · rw [iterate_script_items_eq, hl]
  · rw [iterate_script_items_eq, hl]
  · rw [iterate_script_items_eq, hl]
  · rw [iterate_script_items_eq, hl]; rfl
  · intro g hg0 hg1 hg2
    have hlg : iterLoop g true [a,b,c,d,e] 0 =
        ([⟨0, true, some r0, none, a⟩, ⟨1, true, some r1, none, b⟩,
          ⟨2, false, none, some msg, c⟩], [⟨2, c, msg⟩], 2, 1) := by
      simp [iterLoop, hg0, hg1, hg2]
    rw [iterate_script_items_eq, iterate_script_items_eq, hl, hlg]
  · rw [iterate_script_items_eq, hl]
    refine ⟨mkBreakpointJson sn 5 2 1 (some 1) ns, ?_, ?_⟩
    · exact parseJson_dumpJson _
    · rfl

def c4WitnessF (x : Nat) : Except (List Char) Nat :=
  if x = 2 then .error "boom".data else .ok (x + 100)

/-- Witness for C4: the five items `0..4` with a function failing exactly
on `2`. -/
theorem iterate_stop_on_error_scenario_witness :
    (iterate_script ⟨true, .items [0,1,2,3,4], true, c4WitnessF⟩ "s".data "T".data true
        ⟨none, []⟩).1.successful_iterations = 2 ∧
    (iterate_script ⟨true, .items [0,1,2,3,4], true, c4WitnessF⟩ "s".data "T".data true
        ⟨none, []⟩).1.failed_iterations = 1 ∧
    (iterate_script ⟨true, .items [0,1,2,3,4], true, c4WitnessF⟩ "s".data "T".data true
        ⟨none, []⟩).1.error_items = [⟨2, 2, "boom".data⟩] ∧
    (iterate_script ⟨true, .items [0,1,2,3,4], true, c4WitnessF⟩ "s".data "T".data true
        ⟨none, []⟩).1.iteration_results.length = 3 ∧
    (∀ (g : Nat → Except (List Char) Nat),
      g 0 = .ok 100 → g 1 = .ok 101 → g 2 = .error "boom".data →
      iterate_script ⟨true, .items [0,1,2,3,4], true, g⟩ "s".data "T".data true ⟨none, []⟩ =
        iterate_script ⟨true, .items [0,1,2,3,4], true, c4WitnessF⟩ "s".data "T".data true
          ⟨none, []⟩) ∧
    (∃ bp, load_latest_breakpoint_info
        (iterate_script ⟨true, .items [0,1,2,3,4], true, c4WitnessF⟩ "s".data "T".data true
          ⟨none, []⟩).2 = some bp ∧
      jLookup bp "last_successful_index".data = some (.num 1)) :=
  iterate_stop_on_error_scenario c4WitnessF 0 1 2 3 4 100 101 "boom".data
    "s".data "T".data ⟨none, []⟩ rfl rfl rfl

/-- C5: an iterator run over five items failing exactly at 0-based indices
2 and 4, with stop-on-error off: the run does not halt (all five items
produce a record, in order), with three successes, two failures and two
recorded error items. -/
theorem iterate_continue_on_error_scenario (f : α → Except (List Char) β)
    (a b c d e : α) (r0 r1 r3 : β) (m2 m4 sn ns : List Char) (st : BpStore)
    (h0 : f a = .ok r0) (h1 : f b = .ok r1) (h2 : f c = .error m2)
    (h3 : f d = .ok r3) (h4 : f e = .error m4) :
    (iterate_script ⟨true, .items [a,b,c,d,e], true, f⟩ sn ns false st).1.successful_iterations = 3 ∧
    (iterate_script ⟨true, .items [a,b,c,d,e], true, f⟩ sn ns false st).1.failed_iterations = 2 ∧
    (iterate_script ⟨true, .items [a,b,c,d,e], true, f⟩ sn ns false st).1.error_items.length = 2 ∧
    (iterate_script ⟨true, .items [a,b,c,d,e], true, f⟩ sn ns false st).1.iteration_results.map
        IterRecord.index = [0, 1, 2, 3, 4] := by
  have hl : iterLoop f false [a,b,c,d,e] 0 =
      ([⟨0, true, some r0, none, a⟩, ⟨1, true, some r1, none, b⟩,
        ⟨2, false, none, some m2, c⟩, ⟨3, true, some r3, none, d⟩,
        ⟨4, false, none, some m4, e⟩],
       [⟨2, c, m2⟩, ⟨4, e, m4⟩], 3, 2) := by
    simp [iterLoop, h0, h1, h2, h3, h4]
  refine ⟨?_, ?_, ?_, ?_⟩ <;> rw [iterate_script_items_eq, hl] <;> rfl

def c5WitnessF (x : Nat) : Except (List Char) Nat :=
  if x = 2 || x = 4 then .error "boom".data else .ok (x + 100)

/-- Witness for C5: the five items `0..4` with failures exactly on `2`
and `4`. -/
theorem iterate_continue_on_error_scenario_witness :
    (iterate_script ⟨true, .items [0,1,2,3,4], true, c5WitnessF⟩ "s".data "T".data false
        ⟨none, []⟩).1.successful_iterations = 3 ∧
    (iterate_script ⟨true, .items [0,1,2,3,4], true, c5WitnessF⟩ "s".data "T".data false
        ⟨none, []⟩).1.failed_iterations = 2 ∧
    (iterate_script ⟨true, .items [0,1,2,3,4], true, c5WitnessF⟩ "s".data "T".data false
        ⟨none, []⟩).1.error_items.length = 2 ∧
    (iterate_script ⟨true, .items [0,1,2,3,4], true, c5WitnessF⟩ "s".data "T".data false
        ⟨none, []⟩).1.iteration_results.map IterRecord.index = [0, 1, 2, 3, 4] :=
  iterate_continue_on_error_scenario c5WitnessF 0 1 2 3 4 100 101 103
    "boom".data "boom".data "s".data "T".data ⟨none, []⟩ rfl rfl rfl rfl rfl

theorem iterLoop_all_ok (f : α → Except (List Char) β) (stop : Bool) :
    ∀ (xs : List α) (i : Nat), (∀ x ∈ xs, ∃ b2, f x = .ok b2) →
    (iterLoop f stop xs i).1.map IterRecord.index = List.range' i xs.length ∧
    (iterLoop f stop xs i).1.map IterRecord.item = xs ∧
    (iterLoop f stop xs i).2.1 = [] ∧
    (iterLoop f stop xs i).2.2.1 = xs.length ∧
    (iterLoop f stop xs i).2.2.2 = 0 := by
  intro xs
  induction xs with
  | nil => intro i _; exact ⟨rfl, rfl, rfl, rfl, rfl⟩
  | cons x rest ih =>
    intro i h
    obtain ⟨b2, hb⟩ := h x (by simp)
    obtain ⟨ih1, ih2, ih3, ih4, ih5⟩ := ih (i + 1) (fun y hy => h y (by simp [hy]))
    simp only [iterLoop, hb]
    refine ⟨?_, ?_, ih3, ?_, ih5⟩
    · simp only [List.map_cons, ih1, List.length_cons]
      rw [List.range'_succ]
    · simp only [List.map_cons, ih2]
    · simp only [List.length_cons]; omega

/-- C6: with a persisted checkpoint whose `last_successful_index` is `k`
(`k + 1 < total_items`), `catch_on` resumes at item index `k + 1` and runs
exactly the remaining items in order; when every remaining item succeeds
and the cumulative `successful_items` reaches the total item count, the
latest checkpoint record is cleared. -/
theorem catch_on_resume_and_clear (f : α → Except (List Char) β) (l : List α)
    (sn sn0 ns ts : List Char) (hist : List (List Char)) (k total succ fail : Nat)
    (hk : k + 1 < total) (hlen : l.length = total)
    (hok : ∀ x ∈ l.drop (k + 1), ∃ b2, f x = .ok b2)
    (hsum : succ + (l.length - (k + 1)) = l.length) :
    (catch_on ⟨true, .items l, true, f⟩ sn ns
        ⟨some (dumpJson (mkBreakpointJson sn0 total succ fail (some k) ts) 0), hist⟩).1.success
        = true ∧
    (catch_on ⟨true, .items l, true, f⟩ sn ns
        ⟨some (dumpJson (mkBreakpointJson sn0 total succ fail (some k) ts) 0),
          hist⟩).1.continued_iterations.map IterRecord.index =
      List.range' (k + 1) (l.length - (k + 1)) ∧
    (catch_on ⟨true, .items l, true, f⟩ sn ns
        ⟨some (dumpJson (mkBreakpointJson sn0 total succ fail (some k) ts) 0),
          hist⟩).1.continued_iterations.map IterRecord.item = l.drop (k + 1) ∧
    (catch_on ⟨true, .items l, true, f⟩ sn ns
        ⟨some (dumpJson (mkBreakpointJson sn0 total succ fail (some k) ts) 0),
          hist⟩).1.successful_continued = l.length - (k + 1) ∧
    (catch_on ⟨true, .items l, true, f⟩ sn ns
        ⟨some (dumpJson (mkBreakpointJson sn0 total succ fail (some k) ts) 0),
          hist⟩).1.failed_continued = 0 ∧
    (catch_on ⟨true, .items l, true, f⟩ sn ns
        ⟨some (dumpJson (mkBreakpointJson sn0 total succ fail (some k) ts) 0),
          hist⟩).2.latest = none := by
  obtain ⟨hm1, hm2, hm3, hm4, hm5⟩ :=
    iterLoop_all_ok f true (l.drop (k + 1)) (k + 1) hok
  have hdl : (l.drop (k + 1)).length = l.length - (k + 1) := List.length_drop _ _
  have hload : load_latest_breakpoint_info
      ⟨some (dumpJson (mkBreakpointJson sn0 total succ fail (some k) ts) 0), hist⟩ =
      some (mkBreakpointJson sn0 total succ fail (some k) ts) :=
    parseJson_dumpJson _
  have hj1 : jLookup (mkBreakpointJson sn0 total succ fail (some k) ts)
      "last_successful_index".data = some (.num k) := rfl
  have hj2 : jLookup (mkBreakpointJson sn0 total succ fail (some k) ts)
      "total_items".data = some (.num total) := rfl
  rw [catch_on, hload]
  dsimp only
  rw [hj1, hj2]
  dsimp only
  rw [if_neg (by omega)]
  have htn : ((k : Int) + 1).toNat = k + 1 := by omega
  rw [htn]
  rw [catchRun]
  dsimp only
  rw [if_neg (by simp)]
  rw [if_neg (show ¬(k + 1 ≥ l.length) by omega)]
  rw [if_neg (by simp)]
  rw [hm5]
  rw [if_pos rfl]
  have hg1 : bpGetNumD (mkBreakpointJson sn0 total succ fail (some k) ts)
      "successful_items".data = some (succ : Int) := rfl
  have hg2 : bpGetNumD (mkBreakpointJson sn0 total succ fail (some k) ts)
      "failed_items".data = some (fail : Int) := rfl
  rw [hg1, hg2]
  dsimp only
  rw [hm4, hdl]
  rw [if_pos (show (succ : Int) + ((l.length - (k + 1) : Nat) : Int) =
    ((l.length : Nat) : Int) by omega)]
  exact ⟨rfl, by rw [hm1, hdl], by rw [hm2], rfl, rfl, rfl⟩
def c6WitnessF (x : Nat) : Except (List Char) Nat := .ok (x + 100)

/-- Witness for C6: resuming after Scenario C's checkpoint
(`last_successful_index = 1`, 2 successes out of 5) with a now-healthy
iteration function. -/
theorem catch_on_resume_and_clear_witness :
    (catch_on ⟨true, .items [0,1,2,3,4], true, c6WitnessF⟩ "s".data "T".data
        ⟨some (dumpJson (mkBreakpointJson "s0".data 5 2 1 (some 1) "T0".data) 0),
          []⟩).1.success = true ∧
    (catch_on ⟨true, .items [0,1,2,3,4], true, c6WitnessF⟩ "s".data "T".data
        ⟨some (dumpJson (mkBreakpointJson "s0".data 5 2 1 (some 1) "T0".data) 0),
          []⟩).1.continued_iterations.map IterRecord.index = List.range' 2 3 ∧
    (catch_on ⟨true, .items [0,1,2,3,4], true, c6WitnessF⟩ "s".data "T".data
        ⟨some (dumpJson (mkBreakpointJson "s0".data 5 2 1 (some 1) "T0".data) 0),
          []⟩).1.continued_iterations.map IterRecord.item = [2, 3, 4] ∧
    (catch_on ⟨true, .items [0,1,2,3,4], true, c6WitnessF⟩ "s".data "T".data
        ⟨some (dumpJson (mkBreakpointJson "s0".data 5 2 1 (some 1) "T0".data) 0),
          []⟩).1.successful_continued = 3 ∧
    (catch_on ⟨true, .items [0,1,2,3,4], true, c6WitnessF⟩ "s".data "T".data
        ⟨some (dumpJson (mkBreakpointJson "s0".data 5 2 1 (some 1) "T0".data) 0),
          []⟩).1.failed_continued = 0 ∧
    (catch_on ⟨true, .items [0,1,2,3,4], true, c6WitnessF⟩ "s".data "T".data
        ⟨some (dumpJson (mkBreakpointJson "s0".data 5 2 1 (some 1) "T0".data) 0),
          []⟩).2.latest = none :=
  catch_on_resume_and_clear c6WitnessF [0, 1, 2, 3, 4] "s".data "s0".data "T".data
    "T0".data [] 1 5 2 1 (by omega) rfl (fun x _ => ⟨x + 100, rfl⟩) (by decide)

/-- C9 (amended): `_load_scripts` wraps the whole loading loop in a single
`try/except`, so the first entry whose next-occurrence computation raises
aborts everything after it: if no entry of `es1` fails, loading
`es1 ++ e :: es2` with a failing entry `e` produces exactly `es1`'s heap
pushes and the abort flag, for every tail `es2` — the entries after the
failing one are never computed or inserted. -/
theorem loadScripts_abort_on_error (now : DateTime) (es1 : List ScheduleEntry)
    (e : ScheduleEntry) (es2 : List ScheduleEntry)
    (h1 : (loadScripts now es1).2 = false)
    (hp : e.period ≠ [])
    (hf : (calcNextSyncDatetime
        (match e.last_sync_datetime with | some d => d | none => now)
        e.period (pyOrStr e.start_time "00:00:00".data)
        (pyOrStr e.end_time (pyOrStr (some (pyOrStr e.start_time "00:00:00".data))
          "23:59:59".data))
        (pyOrStr e.step "0".data)).isOk = false) :
    loadScripts now (es1 ++ e :: es2) = ((loadScripts now es1).1, true) := by
  induction es1 with
  | nil =>
    show loadScripts now (e :: es2) = ([], true)
    rw [loadScripts, if_neg hp]
    dsimp only
    cases hc : calcNextSyncDatetime
        (match e.last_sync_datetime with | some d => d | none => now)
        e.period (pyOrStr e.start_time "00:00:00".data)
        (pyOrStr e.end_time (pyOrStr (some (pyOrStr e.start_time "00:00:00".data))
          "23:59:59".data))
        (pyOrStr e.step "0".data) with
    | error msg => rfl
    | ok t => rw [hc] at hf; simp [Except.isOk, Except.toBool] at hf
  | cons a es1 ih =>
    by_cases hap : a.period = []
    · have hR : loadScripts now (a :: es1) = loadScripts now es1 := by
        rw [loadScripts, if_pos hap]
      have hL : loadScripts now (a :: (es1 ++ e :: es2)) =
          loadScripts now (es1 ++ e :: es2) := by
        rw [loadScripts, if_pos hap]
      rw [hR] at h1
      show loadScripts now (a :: (es1 ++ e :: es2)) = _
      rw [hL, ih h1, hR]
    · cases hca : calcNextSyncDatetime
          (match a.last_sync_datetime with | some d => d | none => now)
          a.period (pyOrStr a.start_time "00:00:00".data)
          (pyOrStr a.end_time (pyOrStr (some (pyOrStr a.start_time "00:00:00".data))
            "23:59:59".data))
          (pyOrStr a.step "0".data) with
      | error msg =>
        have hR : (loadScripts now (a :: es1)).2 = true := by
          rw [loadScripts, if_neg hap]
          dsimp only
          rw [hca]
        rw [hR] at h1
        cases h1
      | ok t =>
        have hR : loadScripts now (a :: es1) =
            ((t, a.name) :: (loadScripts now es1).1, (loadScripts now es1).2) := by
          rw [loadScripts, if_neg hap]
          dsimp only
          rw [hca]
        have hL : loadScripts now (a :: (es1 ++ e :: es2)) =
            ((t, a.name) :: (loadScripts now (es1 ++ e :: es2)).1,
              (loadScripts now (es1 ++ e :: es2)).2) := by
          rw [loadScripts, if_neg hap]
          dsimp only
          rw [hca]
        rw [hR] at h1
        dsimp only at h1
        show loadScripts now (a :: (es1 ++ e :: es2)) = _
        rw [hL, ih h1, hR]

def schedGood : ScheduleEntry :=
  ⟨"good_script".data, "every_day".data, some ⟨⟨2024, 6, 10⟩, 54000⟩, none, none, none⟩

def schedBad : ScheduleEntry :=
  ⟨"bad_script".data, "bad_period".data, some ⟨⟨2024, 6, 10⟩, 54000⟩, none, none, none⟩

set_option maxRecDepth 8192 in
/-- C9 counterexample: the entry `good_script` is schedulable on its own
(one heap push), yet when it follows the entry `bad_script` — whose period
`bad_period` makes `calcNextSyncDatetime` raise — the run aborts and
`good_script` is never inserted. -/
theorem loadScripts_counterexample :
    (loadScripts ⟨⟨2024, 6, 10⟩, 54000⟩ [schedGood]).1.length = 1 ∧
    loadScripts ⟨⟨2024, 6, 10⟩, 54000⟩ [schedBad, schedGood] = ([], true) :=
  ⟨rfl, rfl⟩

set_option maxRecDepth 8192 in
/-- Witness for C9's amended theorem at a concrete schedule list. -/
theorem loadScripts_abort_on_error_witness :
    loadScripts ⟨⟨2024, 6, 10⟩, 54000⟩ ([schedGood] ++ schedBad :: [schedGood]) =
      ((loadScripts ⟨⟨2024, 6, 10⟩, 54000⟩ [schedGood]).1, true) :=
  loadScripts_abort_on_error ⟨⟨2024, 6, 10⟩, 54000⟩ [schedGood] schedBad [schedGood]
    rfl (by decide) rfl

end SSM
